import Mathlib

/-!
# Argument parsing of `jsonnice` (cmd/jsonnice/cmd.go)

A shallow embedding of `processArgs` and of the data it works on.

* Go strings are modelled by Lean `String`; `len` is the UTF-8 byte length,
  as in Go, and `arg[0]` is the first character (for a string that starts
  with the ASCII character `-` the first byte and the first character agree).
* `config` is passed by pointer in Go; here every result carries the
  configuration as it stands when the function stops.
* The `for` loop over the index `i` is run with a fuel counter; the theorem
  `processArgs_returns` shows the fuel given in `processArgs` always suffices.
* The version line that `processArgs` writes is not modelled; what `main`
  writes in its dispatch is recorded by `mainSwitch`, the usage text as one item.
-/

namespace Jsonnice

/-- The type `slog.Level` of the Go standard library: an integer. -/
abbrev Level := Int

/-- The constant `slog.LevelDebug`. -/
def LevelDebug : Level := -4
/-- The constant `slog.LevelInfo`. -/
def LevelInfo : Level := 0
/-- The constant `slog.LevelWarn`. -/
def LevelWarn : Level := 4
/-- The constant `slog.LevelError`. -/
def LevelError : Level := 8

/-- The struct `config` (cmd.go, lines 56-62). -/
structure config where
  inputFile : String
  filenameIsCode : Bool
  dap : Bool
  jpath : List String
  logLevel : Level
  deriving DecidableEq

/-- The enumeration `processArgsStatus` (cmd.go, lines 64-72), in the order of
its `iota` values 0..4. -/
inductive processArgsStatus where
  | processArgsStatusContinue
  | processArgsStatusSuccessUsage
  | processArgsStatusFailureUsage
  | processArgsStatusSuccess
  | processArgsStatusFailure
  deriving DecidableEq

open processArgsStatus

/-- Go's `len(s)` on a string: the number of bytes. -/
def len (s : String) : Nat := s.utf8ByteSize

/-- Go's `s[0]`, read as a character. -/
def first (s : String) : Char := s.get 0

/-- Modelled from the spec: `cmd.SimplifyArgs` belongs to the package
cmd/internal/cmd, whose source is not available here. This is the expansion of
one clustered short option: a token `-abc` that is not a long form (its second
character is not `-`) and has at least two option letters becomes the tokens
`-a`, `-b`, `-c`; any other token yields `none`. -/
def expandCluster (arg : String) : Option (List String) :=
  match arg.data with
  | c0 :: c1 :: c2 :: cs =>
    if c0 = '-' ∧ c1 ≠ '-' then
      some ((c1 :: c2 :: cs).map fun c => String.mk ['-', c])
    else none
  | _ => none

/-- Modelled from the spec: `cmd.SimplifyArgs` belongs to the package
cmd/internal/cmd, whose source is not available here. Clustered short options
are expanded token by token; the expansion stops at the first `--` of the
given list, which is copied together with everything after it (the `--`
option suppresses option processing for subsequent arguments). -/
def SimplifyArgs : List String → List String
  | [] => []
  | arg :: rest =>
    if arg = "--" then arg :: rest
    else
      match expandCluster arg with
      | some parts => parts ++ SimplifyArgs rest
      | none => arg :: SimplifyArgs rest

/-- Modelled from the spec: `cmd.NextArg` belongs to the package
cmd/internal/cmd, whose source is not available here. It advances the cursor
`i` by one and yields the token found there; when no token follows, the spec
has the caller report its "empty string" error, so the empty string is
yielded. The result is the new cursor and the token. -/
def NextArg (i : Nat) (args : List String) : Nat × String :=
  (i + 1, args.getD (i + 1) "")

/-- The local variables of `processArgs` that live across loop iterations:
the index `i`, the configuration behind the pointer and `remainingArgs`. -/
structure LoopState where
  i : Nat
  cfg : config
  remainingArgs : List String
  deriving DecidableEq

/-- What one execution of the loop body does. -/
inductive Step where
  /-- The body ran to its end and the post statement `i++` was applied. -/
  | next (s : LoopState)
  /-- The body left the loop through `break`. -/
  | brk (s : LoopState)
  /-- The body returned from `processArgs`. -/
  | ret (status : processArgsStatus) (err : Option String) (cfg : config)
  deriving DecidableEq

/-- The inner loop of the `--` branch (cmd.go, lines 91-93): every remaining
token is appended to `remainingArgs`, one at a time. -/
def copyRemaining : List String → List String → List String
  | remainingArgs, [] => remainingArgs
  | remainingArgs, a :: rest => copyRemaining (remainingArgs ++ [a]) rest

/-- The body of the flag loop (cmd.go, lines 80-126) at a state with
`s.i < len(args)`, followed by the post statement `i++`. -/
def loopBody (args : List String) (s : LoopState) : Step :=
  let arg := args.getD s.i ""
  if arg = "-h" ∨ arg = "--help" then
    .ret processArgsStatusSuccessUsage none s.cfg
  else if arg = "-v" ∨ arg = "--version" then
    .ret processArgsStatusSuccess none s.cfg
  else if arg = "-e" ∨ arg = "--exec" then
    .next { s with i := s.i + 1, cfg := { s.cfg with filenameIsCode := true } }
  else if arg = "--" then
    .brk { s with i := args.length,
                  remainingArgs := copyRemaining s.remainingArgs (args.drop (s.i + 1)) }
  else if arg = "-J" ∨ arg = "--jpath" then
    let (i, dir) := NextArg s.i args
    if len dir = 0 then
      .ret processArgsStatusFailure (some "-J argument was empty string") s.cfg
    else
      .next { s with i := i + 1, cfg := { s.cfg with jpath := s.cfg.jpath ++ [dir] } }
  else if arg = "-d" ∨ arg = "--dap" then
    .next { s with i := s.i + 1, cfg := { s.cfg with dap := true } }
  else if arg = "-l" ∨ arg = "--log-level" then
    let (i, level) := NextArg s.i args
    if len level = 0 then
      .ret processArgsStatusFailure (some "no log level specified") s.cfg
    else if level = "debug" then
      .next { s with i := i + 1, cfg := { s.cfg with logLevel := LevelDebug } }
    else if level = "info" then
      .next { s with i := i + 1, cfg := { s.cfg with logLevel := LevelInfo } }
    else if level = "warn" then
      .next { s with i := i + 1, cfg := { s.cfg with logLevel := LevelWarn } }
    else if level = "error" then
      .next { s with i := i + 1, cfg := { s.cfg with logLevel := LevelError } }
    else
      .ret processArgsStatusFailure
        (some ("invalid log level " ++ level ++ ". Allowed: debug,info,warn,error")) s.cfg
  else if 1 < len arg ∧ first arg = '-' then
    .ret processArgsStatusFailure (some ("unrecognized argument: " ++ arg)) s.cfg
  else
    .next { s with i := s.i + 1, remainingArgs := s.remainingArgs ++ [arg] }

/-- How the flag loop ends. -/
inductive LoopResult where
  /-- The loop was left: its condition failed or the body executed `break`. -/
  | exit (s : LoopState)
  /-- The body returned from `processArgs`. -/
  | ret (status : processArgsStatus) (err : Option String) (cfg : config)
  deriving DecidableEq

/-- The flag loop `for ; i < len(args); i++` (cmd.go, lines 79-127), with a
fuel counter bounding the number of iterations; `none` means the fuel ran out. -/
def loop : Nat → List String → LoopState → Option LoopResult
  | 0, _, _ => none
  | fuel + 1, args, s =>
    if s.i < args.length then
      match loopBody args s with
      | .next s' => loop fuel args s'
      | .brk s' => some (.exit s')
      | .ret status err cfg => some (.ret status err cfg)
    else some (.exit s)

/-- How a call of `processArgs` ends: it returns a status and an error
(`none` for `nil`), or it panics; both with the configuration it leaves. -/
inductive Outcome where
  | returned (status : processArgsStatus) (err : Option String) (cfg : config)
  | panicked (msg : String) (cfg : config)
  deriving DecidableEq

/-- The part of `processArgs` after the flag loop (cmd.go, lines 129-146). -/
def afterLoop (cfg : config) (remainingArgs : List String) : Outcome :=
  if cfg.dap then
    .returned processArgsStatusContinue none cfg
  else
    let want := if cfg.filenameIsCode then "code" else "filename"
    if remainingArgs.length = 0 then
      .returned processArgsStatusFailureUsage (some ("must give " ++ want)) cfg
    else if remainingArgs.length ≠ 1 then
      .panicked "Internal error: expected a single input file." cfg
    else
      .returned processArgsStatusContinue none
        { cfg with inputFile := remainingArgs.getD 0 "" }

/-- The state in which the flag loop starts (cmd.go, lines 76-77). -/
def initState (cfg : config) : LoopState :=
  { i := 0, cfg := cfg, remainingArgs := [] }

/-- The function `processArgs` (cmd.go, lines 74-147). The loop gets one unit
of fuel per token and one for the final test of its condition. -/
def processArgs (givenArgs : List String) (cfg : config) : Option Outcome :=
  let args := SimplifyArgs givenArgs
  match loop (args.length + 1) args (initState cfg) with
  | none => none
  | some (.ret status err cfg') => some (.returned status err cfg')
  | some (.exit s) => some (afterLoop s.cfg s.remainingArgs)

/-- The configuration with which `main` calls `processArgs` (cmd.go, lines
150-153): empty search path, log level error, zero values elsewhere. -/
def mainConfig : config :=
  { inputFile := "", filenameIsCode := false, dap := false, jpath := [],
    logLevel := LevelError }

/-- The scan reaches the head of the loop in state `s` after `n` complete
executions of the body, none of which returned or left the loop. -/
def reach : Nat → List String → LoopState → Option LoopState
  | 0, _, s => some s
  | n + 1, args, s =>
    if s.i < args.length then
      match loopBody args s with
      | .next s' => reach n args s'
      | _ => none
    else none

/-- The configuration carried by the result of one loop body. -/
def Step.config : Step → config
  | .next s => s.cfg
  | .brk s => s.cfg
  | .ret _ _ cfg => cfg

/-- The configuration carried by the result of the flag loop. -/
def LoopResult.config : LoopResult → config
  | .exit s => s.cfg
  | .ret _ _ cfg => cfg

/-- The configuration carried by the outcome of `processArgs`. -/
def Outcome.config : Outcome → config
  | .returned _ _ cfg => cfg
  | .panicked _ cfg => cfg

/-- The tokens that the flag loop recognises as options. -/
def knownFlags : List String :=
  ["-h", "--help", "-v", "--version", "-e", "--exec", "--", "-J", "--jpath", "-d", "--dap",
    "-l", "--log-level"]

/-- The `switch` on the level name (cmd.go, lines 109-120): the level a name
stands for, `none` in the `default` case. -/
def levelOf (level : String) : Option Level :=
  if level = "debug" then some LevelDebug
  else if level = "info" then some LevelInfo
  else if level = "warn" then some LevelWarn
  else if level = "error" then some LevelError
  else none

/-- A token is a cluster when the modelled `SimplifyArgs` expands it. -/
def clustered (arg : String) : Bool := (expandCluster arg).isSome

/-- A positional token in the sense of the last branch of the loop body: it is
empty, a lone dash, or does not start with a dash. -/
def positional (t : String) : Prop :=
  t = "" ∨ t = "-" ∨ t.data.head? ≠ some '-'

instance (t : String) : Decidable (positional t) :=
  inferInstanceAs (Decidable (t = "" ∨ t = "-" ∨ t.data.head? ≠ some '-'))

/-- What `main` writes between the call of `processArgs` and the end of its
`switch` (cmd.go, lines 155-174). The usage text itself is not modelled. -/
inductive Output where
  /-- A line on standard error. -/
  | stderrLine (text : String)
  /-- The usage text on standard output. -/
  | usageStdout
  /-- The usage text on standard error. -/
  | usageStderr
  deriving DecidableEq

/-- The dispatch in `main` on the result of `processArgs` (cmd.go, lines
155-174): what is written, and the code of `os.Exit`, `none` when the `switch`
is left without exiting and `main` goes on to select the mode. -/
def mainSwitch (status : processArgsStatus) (err : Option String) : List Output × Option Nat :=
  let out : List Output :=
    match err with
    | some msg => [.stderrLine ("ERROR: " ++ msg)]
    | none => []
  match status with
  | processArgsStatusContinue => (out, none)
  | processArgsStatusSuccessUsage => (out ++ [.usageStdout], some 0)
  | processArgsStatusFailureUsage =>
    (out ++ (if err ≠ none then [.stderrLine ""] else []) ++ [.usageStderr], some 1)
  | processArgsStatusSuccess => (out, some 0)
  | processArgsStatusFailure => (out, some 1)

/-- The argument list `["-J", d1, ..., "-J", dn, f]`: one `-J` flag for each
directory of the list, then the token `f`. -/
def jpathArgs : List String → String → List String
  | [], f => [f]
  | d :: ds, f => "-J" :: d :: jpathArgs ds f

/-! ## The loop body, branch by branch -/

/-- Case analysis on the loop body: a property holds of its result when it
holds of the result of every branch. -/
theorem loopBody_cases (args : List String) (s : LoopState) (P : Step → Prop)
    (hhelp : P (.ret processArgsStatusSuccessUsage none s.cfg))
    (hversion : P (.ret processArgsStatusSuccess none s.cfg))
    (hexec : P (.next { s with i := s.i + 1, cfg := { s.cfg with filenameIsCode := true } }))
    (hbrk : P (.brk ⟨args.length, s.cfg,
      copyRemaining s.remainingArgs (args.drop (s.i + 1))⟩))
    (hfail : ∀ msg, P (.ret processArgsStatusFailure (some msg) s.cfg))
    (hjpath : ∀ dir, len dir ≠ 0 →
      P (.next { s with i := s.i + 1 + 1, cfg := { s.cfg with jpath := s.cfg.jpath ++ [dir] } }))
    (hdap : P (.next { s with i := s.i + 1, cfg := { s.cfg with dap := true } }))
    (hlevel : ∀ lvl, P (.next { s with i := s.i + 1 + 1, cfg := { s.cfg with logLevel := lvl } }))
    (hpos : ∀ arg, P (.next { s with i := s.i + 1, remainingArgs := s.remainingArgs ++ [arg] })) :
    P (loopBody args s) := by
  unfold loopBody
  simp only [NextArg]
  generalize args.getD s.i "" = arg
  generalize args.getD (s.i + 1) "" = arg'
  by_cases h1 : arg = "-h" ∨ arg = "--help"
  · rw [if_pos h1]; exact hhelp
  rw [if_neg h1]
  by_cases h2 : arg = "-v" ∨ arg = "--version"
  · rw [if_pos h2]; exact hversion
  rw [if_neg h2]
  by_cases h3 : arg = "-e" ∨ arg = "--exec"
  · rw [if_pos h3]; exact hexec
  rw [if_neg h3]
  by_cases h4 : arg = "--"
  · rw [if_pos h4]; exact hbrk
  rw [if_neg h4]
  by_cases h5 : arg = "-J" ∨ arg = "--jpath"
  · rw [if_pos h5]
    by_cases h : len arg' = 0
    · rw [if_pos h]; exact hfail _
    · rw [if_neg h]; exact hjpath _ h
  rw [if_neg h5]
  by_cases h6 : arg = "-d" ∨ arg = "--dap"
  · rw [if_pos h6]; exact hdap
  rw [if_neg h6]
  by_cases h7 : arg = "-l" ∨ arg = "--log-level"
  · rw [if_pos h7]
    by_cases h : len arg' = 0
    · rw [if_pos h]; exact hfail _
    rw [if_neg h]
    by_cases ha : arg' = "debug"
    · rw [if_pos ha]; exact hlevel _
    rw [if_neg ha]
    by_cases hb : arg' = "info"
    · rw [if_pos hb]; exact hlevel _
    rw [if_neg hb]
    by_cases hc : arg' = "warn"
    · rw [if_pos hc]; exact hlevel _
    rw [if_neg hc]
    by_cases hd : arg' = "error"
    · rw [if_pos hd]; exact hlevel _
    rw [if_neg hd]; exact hfail _
  rw [if_neg h7]
  by_cases h8 : 1 < len arg ∧ first arg = '-'
  · rw [if_pos h8]; exact hfail _
  rw [if_neg h8]; exact hpos _

theorem loopBody_next_lt {args : List String} {s s' : LoopState}
    (h : loopBody args s = .next s') : s.i < s'.i := by
  revert h
  refine loopBody_cases args s (fun r => r = .next s' → s.i < s'.i) ?_ ?_ ?_ ?_ ?_ ?_ ?_ ?_ ?_
  all_goals beta_reduce
  all_goals intros
  all_goals rename_i h
  all_goals cases h <;> (dsimp only; omega)

/-! ## Strings -/

theorem len_eq_zero (s : String) : len s = 0 ↔ s = "" := by
  rcases s with ⟨cs⟩
  cases cs with
  | nil => simp [len, String.utf8ByteSize, String.utf8ByteSize.go]
  | cons c cs =>
    have := c.utf8Size_pos
    simp only [len, String.utf8ByteSize, String.utf8ByteSize.go]
    constructor
    · intro h; omega
    · intro h; exact absurd (congrArg String.data h) (by simp)

theorem utf8Size_dash : ('-' : Char).utf8Size = 1 := by decide

/-- The test of line 122, `len(arg) > 1 && arg[0] == '-'`, says that the
token is a dash followed by at least one more character. -/
theorem dash_test (s : String) :
    (1 < len s ∧ first s = '-') ↔ ∃ c cs, s.data = '-' :: c :: cs := by
  rcases s with ⟨cs⟩
  cases cs with
  | nil => simp [len, first, String.utf8ByteSize, String.utf8ByteSize.go]
  | cons a cs =>
    have hfirst : first ⟨a :: cs⟩ = a := by
      simp [first, String.get, String.utf8GetAux]
    rw [hfirst]
    cases cs with
    | nil =>
      simp only [len, String.utf8ByteSize, String.utf8ByteSize.go]
      constructor
      · rintro ⟨h1, h2⟩; subst h2; rw [utf8Size_dash] at h1; omega
      · rintro ⟨c, cs, h⟩; simp at h
    | cons b cs =>
      have ha := a.utf8Size_pos
      have hb := b.utf8Size_pos
      simp only [len, String.utf8ByteSize, String.utf8ByteSize.go]
      constructor
      · rintro ⟨_, h2⟩; exact ⟨b, cs, by rw [h2]⟩
      · rintro ⟨c, cs', h⟩
        simp only [List.cons.injEq] at h
        exact ⟨by omega, h.1⟩

/-! ## The flag loop: fuel -/

theorem loop_succ {args : List String} {r : LoopResult} :
    ∀ (f : Nat) (s : LoopState), loop f args s = some r → loop (f + 1) args s = some r := by
  intro f
  induction f with
  | zero => intro s h; simp [loop] at h
  | succ f ih =>
    intro s h
    rw [loop] at h ⊢
    by_cases hi : s.i < args.length
    · rw [if_pos hi] at h ⊢
      cases hb : loopBody args s with
      | next s' => rw [hb] at h; exact ih s' h
      | brk s' => rw [hb] at h; exact h
      | ret st e c => rw [hb] at h; exact h
    · rw [if_neg hi] at h ⊢; exact h

theorem loop_add {args : List String} {r : LoopResult} {f : Nat} {s : LoopState}
    (h : loop f args s = some r) (k : Nat) : loop (f + k) args s = some r := by
  induction k with
  | zero => exact h
  | succ k ih => exact loop_succ (f + k) s ih

theorem loop_unique {args : List String} {r r' : LoopResult} {f f' : Nat} {s : LoopState}
    (h : loop f args s = some r) (h' : loop f' args s = some r') : r = r' := by
  have h1 := loop_add h f'
  have h2 := loop_add h' f
  rw [Nat.add_comm] at h2
  rw [h1] at h2
  exact Option.some.inj h2

/-- The loop stops: one unit of fuel per remaining token and one more for the
last test of the condition are enough. -/
theorem loop_isSome (args : List String) :
    ∀ (f : Nat) (s : LoopState), args.length ≤ s.i + f → ∃ r, loop (f + 1) args s = some r := by
  intro f
  induction f with
  | zero =>
    intro s h
    refine ⟨.exit s, ?_⟩
    rw [loop, if_neg (by omega)]
  | succ f ih =>
    intro s h
    rw [loop]
    by_cases hi : s.i < args.length
    · rw [if_pos hi]
      cases hb : loopBody args s with
      | next s' =>
        have := loopBody_next_lt hb
        exact ih s' (by omega)
      | brk s' => exact ⟨_, rfl⟩
      | ret st e c => exact ⟨_, rfl⟩
    · rw [if_neg hi]; exact ⟨_, rfl⟩

/-- Whatever fuel produced a result, the fuel of `processArgs` produces it. -/
theorem loop_full {args : List String} {r : LoopResult} {f : Nat} {cfg : config}
    (h : loop f args (initState cfg) = some r) :
    loop (args.length + 1) args (initState cfg) = some r := by
  obtain ⟨r0, h0⟩ := loop_isSome args args.length (initState cfg) (by simp [initState])
  rw [h0, loop_unique h0 h]

/-! ## Reachability -/

theorem reach_loop {args : List String} {r : LoopResult} {f : Nat} :
    ∀ (n : Nat) (s0 s : LoopState), reach n args s0 = some s → loop f args s = some r →
      loop (n + f) args s0 = some r := by
  intro n
  induction n with
  | zero =>
    intro s0 s h hl
    rw [reach] at h
    cases h
    rw [Nat.zero_add]; exact hl
  | succ n ih =>
    intro s0 s h hl
    rw [reach] at h
    by_cases hi : s0.i < args.length
    · rw [if_pos hi] at h
      rw [show n + 1 + f = (n + f) + 1 by omega, loop, if_pos hi]
      cases hb : loopBody args s0 with
      | next s' => rw [hb] at h; exact ih s' s h hl
      | brk s' => rw [hb] at h; cases h
      | ret st e c => rw [hb] at h; cases h
    · rw [if_neg hi] at h; cases h

/-- The loop started in a reached state ends as the loop started at the
beginning does. -/
theorem loop_of_reach {args : List String} {r : LoopResult} {f n : Nat} {s0 s : LoopState}
    (h : reach n args s0 = some s) (hl : loop f args s0 = some r) :
    ∃ f', loop f' args s = some r := by
  obtain ⟨r', hr'⟩ := loop_isSome args args.length s (by omega)
  have := reach_loop n s0 s h hr'
  rw [loop_unique hl this]
  exact ⟨_, hr'⟩

theorem reach_succ {args : List String} {s' : LoopState} :
    ∀ (n : Nat) (s0 s : LoopState), reach n args s0 = some s → s.i < args.length →
      loopBody args s = .next s' → reach (n + 1) args s0 = some s' := by
  intro n
  induction n with
  | zero =>
    intro s0 s h hi hb
    rw [reach] at h
    cases h
    rw [reach, if_pos hi, hb]; rfl
  | succ n ih =>
    intro s0 s h hi hb
    rw [reach] at h ⊢
    by_cases hi0 : s0.i < args.length
    · rw [if_pos hi0] at h ⊢
      cases hb0 : loopBody args s0 with
      | next s1 => rw [hb0] at h; exact ih s1 s h hi hb
      | brk s1 => rw [hb0] at h; cases h
      | ret st e c => rw [hb0] at h; cases h
    · rw [if_neg hi0] at h; cases h

/-! ## Invariants of the configuration -/

theorem loop_config_inv (P : config → Prop)
    (hP : ∀ (args : List String) (s : LoopState), P s.cfg → P (loopBody args s).config)
    {args : List String} {r : LoopResult} :
    ∀ (f : Nat) (s : LoopState), loop f args s = some r → P s.cfg → P r.config := by
  intro f
  induction f with
  | zero => intro s h; simp [loop] at h
  | succ f ih =>
    intro s h hs
    rw [loop] at h
    have hstep := hP args s hs
    by_cases hi : s.i < args.length
    · rw [if_pos hi] at h
      cases hb : loopBody args s with
      | next s' => rw [hb] at h hstep; exact ih s' h hstep
      | brk s' => rw [hb] at h hstep; cases h; exact hstep
      | ret st e c => rw [hb] at h hstep; cases h; exact hstep
    · rw [if_neg hi] at h; cases h; exact hs

theorem reach_config_inv (P : config → Prop)
    (hP : ∀ (args : List String) (s : LoopState), P s.cfg → P (loopBody args s).config)
    {args : List String} {s : LoopState} :
    ∀ (n : Nat) (s0 : LoopState), reach n args s0 = some s → P s0.cfg → P s.cfg := by
  intro n
  induction n with
  | zero => intro s0 h hs; rw [reach] at h; cases h; exact hs
  | succ n ih =>
    intro s0 h hs
    rw [reach] at h
    have hstep := hP args s0 hs
    by_cases hi : s0.i < args.length
    · rw [if_pos hi] at h
      cases hb : loopBody args s0 with
      | next s' => rw [hb] at h hstep; exact ih s' h hstep
      | brk s' => rw [hb] at h; cases h
      | ret st e c => rw [hb] at h; cases h
    · rw [if_neg hi] at h; cases h

/-- The loop body never assigns `inputFile`. -/
theorem loopBody_inputFile (x : String) (args : List String) (s : LoopState)
    (h : s.cfg.inputFile = x) : (loopBody args s).config.inputFile = x := by
  refine loopBody_cases args s (fun r => r.config.inputFile = x) ?_ ?_ ?_ ?_ ?_ ?_ ?_ ?_ ?_
  all_goals beta_reduce
  all_goals intros
  all_goals exact h

/-- The loop body never clears `dap`. -/
theorem loopBody_dap (args : List String) (s : LoopState)
    (h : s.cfg.dap = true) : (loopBody args s).config.dap = true := by
  refine loopBody_cases args s (fun r => r.config.dap = true) ?_ ?_ ?_ ?_ ?_ ?_ ?_ ?_ ?_
  all_goals beta_reduce
  all_goals intros
  all_goals first | exact h | rfl

/-- The loop body never clears `filenameIsCode`. -/
theorem loopBody_filenameIsCode (args : List String) (s : LoopState)
    (h : s.cfg.filenameIsCode = true) : (loopBody args s).config.filenameIsCode = true := by
  refine loopBody_cases args s (fun r => r.config.filenameIsCode = true) ?_ ?_ ?_ ?_ ?_ ?_ ?_ ?_ ?_
  all_goals beta_reduce
  all_goals intros
  all_goals first | exact h | rfl

/-! ## `processArgs` in terms of the loop -/

theorem processArgs_of_ret {givenArgs : List String} {cfg cfg' : config} {f : Nat}
    {status : processArgsStatus} {err : Option String}
    (h : loop f (SimplifyArgs givenArgs) (initState cfg) = some (.ret status err cfg')) :
    processArgs givenArgs cfg = some (.returned status err cfg') := by
  unfold processArgs
  simp only [loop_full h]

theorem processArgs_of_exit {givenArgs : List String} {cfg : config} {f : Nat} {s : LoopState}
    (h : loop f (SimplifyArgs givenArgs) (initState cfg) = some (.exit s)) :
    processArgs givenArgs cfg = some (afterLoop s.cfg s.remainingArgs) := by
  unfold processArgs
  simp only [loop_full h]

/-- The function always stops, by returning or by panicking: the fuel never runs out. -/
theorem processArgs_returns (givenArgs : List String) (cfg : config) :
    ∃ o, processArgs givenArgs cfg = some o := by
  obtain ⟨r, hr⟩ := loop_isSome (SimplifyArgs givenArgs) (SimplifyArgs givenArgs).length
    (initState cfg) (by simp [initState])
  cases r with
  | exit s => exact ⟨_, processArgs_of_exit hr⟩
  | ret st e c => exact ⟨_, processArgs_of_ret hr⟩

/-- A body that returns in a reached state decides the result of `processArgs`. -/
theorem processArgs_of_reach_ret {givenArgs : List String} {cfg cfg' : config} {n : Nat}
    {s : LoopState} {status : processArgsStatus} {err : Option String}
    (h : reach n (SimplifyArgs givenArgs) (initState cfg) = some s)
    (hi : s.i < (SimplifyArgs givenArgs).length)
    (hb : loopBody (SimplifyArgs givenArgs) s = .ret status err cfg') :
    processArgs givenArgs cfg = some (.returned status err cfg') := by
  have hl : loop 1 (SimplifyArgs givenArgs) s = some (.ret status err cfg') := by
    rw [loop, if_pos hi, hb]
  exact processArgs_of_ret (reach_loop n _ s h hl)

theorem copyRemaining_eq (rem rest : List String) : copyRemaining rem rest = rem ++ rest := by
  induction rest generalizing rem with
  | nil => simp [copyRemaining]
  | cons a rest ih => rw [copyRemaining, ih]; simp

theorem loopBody_exec {args : List String} {s : LoopState}
    (h : args.getD s.i "" = "-e" ∨ args.getD s.i "" = "--exec") :
    loopBody args s
      = .next { s with i := s.i + 1, cfg := { s.cfg with filenameIsCode := true } } := by
  unfold loopBody
  generalize args.getD s.i "" = arg at h ⊢
  rcases h with rfl | rfl <;> simp

theorem loopBody_dap_flag {args : List String} {s : LoopState}
    (h : args.getD s.i "" = "-d" ∨ args.getD s.i "" = "--dap") :
    loopBody args s = .next { s with i := s.i + 1, cfg := { s.cfg with dap := true } } := by
  unfold loopBody
  generalize args.getD s.i "" = arg at h ⊢
  rcases h with rfl | rfl <;> simp

theorem loopBody_help {args : List String} {s : LoopState}
    (h : args.getD s.i "" = "-h" ∨ args.getD s.i "" = "--help") :
    loopBody args s = .ret processArgsStatusSuccessUsage none s.cfg := by
  unfold loopBody
  generalize args.getD s.i "" = arg at h ⊢
  rcases h with rfl | rfl <;> simp

theorem loopBody_dashdash {args : List String} {s : LoopState}
    (h : args.getD s.i "" = "--") :
    loopBody args s = .brk ⟨args.length, s.cfg, s.remainingArgs ++ args.drop (s.i + 1)⟩ := by
  unfold loopBody
  generalize args.getD s.i "" = arg at h ⊢
  subst h
  simp [copyRemaining_eq]

theorem loopBody_jpath {args : List String} {s : LoopState}
    (h : args.getD s.i "" = "-J" ∨ args.getD s.i "" = "--jpath") :
    loopBody args s =
      if args.getD (s.i + 1) "" = "" then
        .ret processArgsStatusFailure (some "-J argument was empty string") s.cfg
      else
        .next { s with i := s.i + 1 + 1,
                       cfg := { s.cfg with jpath := s.cfg.jpath ++ [args.getD (s.i + 1) ""] } } := by
  unfold loopBody
  simp only [NextArg, len_eq_zero]
  generalize args.getD (s.i + 1) "" = arg'
  generalize args.getD s.i "" = arg at h ⊢
  rcases h with rfl | rfl <;> simp

theorem loopBody_level {args : List String} {s : LoopState}
    (h : args.getD s.i "" = "-l" ∨ args.getD s.i "" = "--log-level") :
    loopBody args s =
      if args.getD (s.i + 1) "" = "" then
        .ret processArgsStatusFailure (some "no log level specified") s.cfg
      else if args.getD (s.i + 1) "" = "debug" then
        .next { s with i := s.i + 1 + 1, cfg := { s.cfg with logLevel := LevelDebug } }
      else if args.getD (s.i + 1) "" = "info" then
        .next { s with i := s.i + 1 + 1, cfg := { s.cfg with logLevel := LevelInfo } }
      else if args.getD (s.i + 1) "" = "warn" then
        .next { s with i := s.i + 1 + 1, cfg := { s.cfg with logLevel := LevelWarn } }
      else if args.getD (s.i + 1) "" = "error" then
        .next { s with i := s.i + 1 + 1, cfg := { s.cfg with logLevel := LevelError } }
      else
        .ret processArgsStatusFailure
          (some ("invalid log level " ++ args.getD (s.i + 1) ""
            ++ ". Allowed: debug,info,warn,error")) s.cfg := by
  unfold loopBody
  simp only [NextArg, len_eq_zero]
  generalize args.getD (s.i + 1) "" = arg'
  generalize args.getD s.i "" = arg at h ⊢
  rcases h with rfl | rfl <;> simp

/-- A token that is none of the options reaches the last two branches. -/
theorem loopBody_other {args : List String} {s : LoopState}
    (h : args.getD s.i "" ∉ knownFlags) :
    loopBody args s =
      if 1 < len (args.getD s.i "") ∧ first (args.getD s.i "") = '-' then
        .ret processArgsStatusFailure (some ("unrecognized argument: " ++ args.getD s.i "")) s.cfg
      else
        .next { s with i := s.i + 1,
                       remainingArgs := s.remainingArgs ++ [args.getD s.i ""] } := by
  unfold loopBody
  generalize args.getD s.i "" = arg at h ⊢
  simp only [knownFlags, List.mem_cons, List.mem_singleton, List.not_mem_nil, not_or,
    or_false] at h
  obtain ⟨h1, h2, h3, h4, h5, h6, h7, h8, h9, h10, h11, h12, h13⟩ := h
  simp only [h1, h2, h3, h4, h5, h6, h7, h8, h9, h10, h11, h12, h13, or_self, if_false]

/-! ## The expansion of clustered options -/

theorem processArgs_congr {a b : List String} (h : SimplifyArgs a = SimplifyArgs b)
    (cfg : config) : processArgs a cfg = processArgs b cfg := by
  unfold processArgs
  rw [h]

theorem SimplifyArgs_append {pre : List String} (hpre : "--" ∉ pre) (l : List String) :
    SimplifyArgs (pre ++ l) = SimplifyArgs pre ++ SimplifyArgs l := by
  induction pre with
  | nil => rfl
  | cons a pre ih =>
    have ha : a ≠ "--" := fun h => hpre (by simp [h])
    have hp : "--" ∉ pre := fun h => hpre (by simp [h])
    rw [List.cons_append, SimplifyArgs, SimplifyArgs, if_neg ha, if_neg ha, ih hp]
    cases expandCluster a <;> simp

theorem short_ne_dashdash {c : Char} (hc : c ≠ '-') : String.mk ['-', c] ≠ "--" := by
  intro h
  have := congrArg String.data h
  simp only [show "--".data = ['-', '-'] from rfl, List.cons.injEq, and_true, true_and] at this
  exact hc this

theorem SimplifyArgs_shorts (cs : List Char) (hcs : ∀ c ∈ cs, c ≠ '-') (l : List String) :
    SimplifyArgs (cs.map (fun c => String.mk ['-', c]) ++ l)
      = cs.map (fun c => String.mk ['-', c]) ++ SimplifyArgs l := by
  induction cs with
  | nil => rfl
  | cons c cs ih =>
    have hc : c ≠ '-' := hcs c (by simp)
    rw [List.map_cons, List.cons_append, SimplifyArgs, if_neg (short_ne_dashdash hc),
      ih (fun d hd => hcs d (by simp [hd]))]
    rfl

theorem SimplifyArgs_cluster (c1 c2 : Char) (cs : List Char) (h1 : c1 ≠ '-')
    (l : List String) :
    SimplifyArgs (String.mk ('-' :: c1 :: c2 :: cs) :: l)
      = (c1 :: c2 :: cs).map (fun c => String.mk ['-', c]) ++ SimplifyArgs l := by
  have hne : String.mk ('-' :: c1 :: c2 :: cs) ≠ "--" := by
    intro h
    have := congrArg String.data h
    simp [show "--".data = ['-', '-'] from rfl] at this
  have hex : expandCluster (String.mk ('-' :: c1 :: c2 :: cs))
      = some ((c1 :: c2 :: cs).map (fun c => String.mk ['-', c])) := by
    simp [expandCluster, h1]
  rw [SimplifyArgs, if_neg hne, hex]

/-- A token that is empty, is a lone dash or does not start with a dash is no
option and fails the test for an unrecognized argument. -/
theorem positional_not_flag {t : String}
    (ht : t = "" ∨ t = "-" ∨ t.data.head? ≠ some '-') :
    t ∉ knownFlags ∧ ¬ (1 < len t ∧ first t = '-') := by
  constructor
  · intro hmem
    simp only [knownFlags, List.mem_cons, List.mem_singleton, List.not_mem_nil, or_false] at hmem
    rcases ht with rfl | rfl | h
    · revert hmem; decide
    · revert hmem; decide
    · rcases hmem with rfl | rfl | rfl | rfl | rfl | rfl | rfl | rfl | rfl | rfl | rfl | rfl | rfl
      all_goals exact h rfl
  · rw [dash_test]
    rintro ⟨c, cs, h⟩
    rcases ht with rfl | rfl | h'
    · simp at h
    · simp at h
    · rw [h] at h'; exact h' rfl

/-! ## The claims -/

/-- Claim C1: when the flag loop ends without returning, DAP mode is off and no
positional token was collected, `processArgs` returns failure-show-usage with
the error "must give code" if `filenameIsCode` is set and "must give filename"
otherwise; `inputFile` keeps the value it had on entry; and `filenameIsCode` is
set whenever the scan reached a token `-e` or `--exec`. -/
theorem missing_input_is_usage_failure (givenArgs : List String) (cfg : config) (sf : LoopState)
    (hscan : loop ((SimplifyArgs givenArgs).length + 1) (SimplifyArgs givenArgs) (initState cfg)
      = some (.exit sf))
    (hdap : sf.cfg.dap = false) (hrem : sf.remainingArgs = []) :
    processArgs givenArgs cfg = some (.returned processArgsStatusFailureUsage
        (some (if sf.cfg.filenameIsCode then "must give code" else "must give filename")) sf.cfg)
      ∧ sf.cfg.inputFile = cfg.inputFile
      ∧ (∀ n s, reach n (SimplifyArgs givenArgs) (initState cfg) = some s →
          s.i < (SimplifyArgs givenArgs).length →
          ((SimplifyArgs givenArgs).getD s.i "" = "-e"
            ∨ (SimplifyArgs givenArgs).getD s.i "" = "--exec") →
          sf.cfg.filenameIsCode = true) := by
  refine ⟨?_, ?_, ?_⟩
  · rw [processArgs_of_exit hscan, afterLoop, hdap, hrem]
    cases sf.cfg.filenameIsCode <;> rfl
  · exact loop_config_inv (fun c => c.inputFile = cfg.inputFile)
      (loopBody_inputFile cfg.inputFile) _ _ hscan rfl
  · intro n s hr hi he
    have hs := reach_succ n _ s hr hi (loopBody_exec he)
    obtain ⟨f', hf'⟩ := loop_of_reach hs hscan
    exact loop_config_inv (fun c => c.filenameIsCode = true) loopBody_filenameIsCode _ _ hf' rfl

theorem missing_input_is_usage_failure_witness :
    processArgs ["-J", "lib", "-e"] mainConfig = some (.returned processArgsStatusFailureUsage
        (some "must give code") { mainConfig with filenameIsCode := true, jpath := ["lib"] }) :=
  (missing_input_is_usage_failure ["-J", "lib", "-e"] mainConfig
    ⟨3, { mainConfig with filenameIsCode := true, jpath := ["lib"] }, []⟩
    (by decide) (by decide) (by decide)).1

/-- Claim C2: for every token `t`, flag-like or not, the argument list `["--", t]`
is left as it is by the expansion and, with DAP mode off on entry, `processArgs`
returns continue with no error and a configuration that differs from the given
one in `inputFile = t` only. Whenever the loop meets `--` it ends with exactly
the tokens after the marker appended to the positional tokens: the marker
itself is not among them. -/
theorem dashdash_token_is_input (t : String) (cfg : config) (hdap : cfg.dap = false) :
    SimplifyArgs ["--", t] = ["--", t]
      ∧ processArgs ["--", t] cfg
        = some (.returned processArgsStatusContinue none { cfg with inputFile := t })
      ∧ (∀ (args : List String) (s : LoopState), s.i < args.length → args.getD s.i "" = "--" →
          loop 1 args s
            = some (.exit ⟨args.length, s.cfg, s.remainingArgs ++ args.drop (s.i + 1)⟩)) := by
  have hloop : ∀ (args : List String) (s : LoopState), s.i < args.length →
      args.getD s.i "" = "--" →
      loop 1 args s
        = some (.exit ⟨args.length, s.cfg, s.remainingArgs ++ args.drop (s.i + 1)⟩) := by
    intro args s hi h
    rw [loop, if_pos hi, loopBody_dashdash h]
  have hs : SimplifyArgs ["--", t] = ["--", t] := rfl
  refine ⟨hs, ?_, hloop⟩
  have h1 : loop 1 (SimplifyArgs ["--", t]) (initState cfg)
      = some (.exit ⟨2, cfg, [t]⟩) := by
    rw [hs]
    exact hloop ["--", t] (initState cfg) (by simp [initState]) rfl
  rw [processArgs_of_exit h1, afterLoop, hdap]
  rfl

theorem dashdash_token_is_input_witness :
    mainConfig.dap = false ∧ processArgs ["--", "-ed"] mainConfig
      = some (.returned processArgsStatusContinue none { mainConfig with inputFile := "-ed" }) :=
  ⟨rfl, (dashdash_token_is_input "-ed" mainConfig rfl).2.1⟩

/-- Claim C3 as stated fails: the list `["--", "-h"]` contains the token `-h`
and no earlier token ends the parse, yet `processArgs` returns continue with
`inputFile = "-h"` and not success-show-usage. -/
theorem help_after_dashdash_is_input :
    "-h" ∈ ["--", "-h"] ∧ processArgs ["--", "-h"] mainConfig
      = some (.returned processArgsStatusContinue none { mainConfig with inputFile := "-h" }) := by
  decide

/-- Claim C3, amended: when the scan of the expanded argument list reaches a
token `-h` or `--help` at the head of the loop (so the token stands neither
after `--` nor as the argument of `-J` or `-l`, and nothing before it returned),
`processArgs` returns success-show-usage with a nil error and the configuration
built so far, whatever tokens follow. -/
theorem help_stops_scan (givenArgs : List String) (cfg : config) (n : Nat) (s : LoopState)
    (hreach : reach n (SimplifyArgs givenArgs) (initState cfg) = some s)
    (hi : s.i < (SimplifyArgs givenArgs).length)
    (hhelp : (SimplifyArgs givenArgs).getD s.i "" = "-h"
      ∨ (SimplifyArgs givenArgs).getD s.i "" = "--help") :
    processArgs givenArgs cfg = some (.returned processArgsStatusSuccessUsage none s.cfg) :=
  processArgs_of_reach_ret hreach hi (loopBody_help hhelp)

theorem help_stops_scan_witness :
    processArgs ["-eh", "--bogus", "x", "y"] mainConfig
      = some (.returned processArgsStatusSuccessUsage none
          { mainConfig with filenameIsCode := true }) :=
  help_stops_scan ["-eh", "--bogus", "x", "y"] mainConfig 1
    ⟨1, { mainConfig with filenameIsCode := true }, []⟩ (by decide) (by decide) (by decide)

/-- Claim C4: when the scan reaches a token `-J` or `--jpath` that is followed by
the empty string or by no token, `processArgs` returns failure with the error
"-J argument was empty string" and the configuration is the one in which the
flag was reached, so this flag adds nothing to `jpath`; in particular
`["-J", "", "foo.jsonnet"]` fails so and leaves the given configuration as it is. -/
theorem jpath_empty_fails (givenArgs : List String) (cfg : config) (n : Nat) (s : LoopState)
    (hreach : reach n (SimplifyArgs givenArgs) (initState cfg) = some s)
    (hi : s.i < (SimplifyArgs givenArgs).length)
    (hflag : (SimplifyArgs givenArgs).getD s.i "" = "-J"
      ∨ (SimplifyArgs givenArgs).getD s.i "" = "--jpath")
    (hnext : (SimplifyArgs givenArgs)[s.i + 1]? = some ""
      ∨ (SimplifyArgs givenArgs)[s.i + 1]? = none) :
    processArgs givenArgs cfg
        = some (.returned processArgsStatusFailure (some "-J argument was empty string") s.cfg)
      ∧ processArgs ["-J", "", "foo.jsonnet"] cfg
        = some (.returned processArgsStatusFailure (some "-J argument was empty string") cfg) := by
  have key : ∀ (g : List String) (m : Nat) (t : LoopState),
      reach m (SimplifyArgs g) (initState cfg) = some t → t.i < (SimplifyArgs g).length →
      ((SimplifyArgs g).getD t.i "" = "-J" ∨ (SimplifyArgs g).getD t.i "" = "--jpath") →
      ((SimplifyArgs g)[t.i + 1]? = some "" ∨ (SimplifyArgs g)[t.i + 1]? = none) →
      processArgs g cfg
        = some (.returned processArgsStatusFailure (some "-J argument was empty string") t.cfg) := by
    intro g m t hr hlt hf hn
    refine processArgs_of_reach_ret hr hlt ?_
    have he : (SimplifyArgs g).getD (t.i + 1) "" = "" := by
      rw [List.getD_eq_getElem?_getD]
      rcases hn with h | h <;> rw [h] <;> rfl
    rw [loopBody_jpath hf, if_pos he]
  exact ⟨key givenArgs n s hreach hi hflag hnext,
    key ["-J", "", "foo.jsonnet"] 0 (initState cfg) rfl (by show 0 < 3; decide) (Or.inl rfl)
      (Or.inl rfl)⟩

theorem jpath_empty_fails_witness :
    processArgs ["-d", "--jpath"] mainConfig
      = some (.returned processArgsStatusFailure (some "-J argument was empty string")
          { mainConfig with dap := true }) :=
  (jpath_empty_fails ["-d", "--jpath"] mainConfig 1 ⟨1, { mainConfig with dap := true }, []⟩
    (by decide) (by decide) (by decide) (by decide)).1

/-- Claim C5: when the scan reaches a token `-l` or `--log-level` followed by a
non-empty token `x` other than `debug`, `info`, `warn`, `error`, `processArgs`
returns failure with the error "invalid log level x. Allowed:
debug,info,warn,error", and the configuration, `logLevel` included, is the one
in which the flag was reached. -/
theorem invalid_log_level_fails (givenArgs : List String) (cfg : config) (n : Nat)
    (s : LoopState) (x : String)
    (hreach : reach n (SimplifyArgs givenArgs) (initState cfg) = some s)
    (hi : s.i < (SimplifyArgs givenArgs).length)
    (hflag : (SimplifyArgs givenArgs).getD s.i "" = "-l"
      ∨ (SimplifyArgs givenArgs).getD s.i "" = "--log-level")
    (hnext : (SimplifyArgs givenArgs)[s.i + 1]? = some x)
    (hne : x ≠ "") (hx : x ∉ ["debug", "info", "warn", "error"]) :
    processArgs givenArgs cfg
        = some (.returned processArgsStatusFailure
            (some ("invalid log level " ++ x ++ ". Allowed: debug,info,warn,error")) s.cfg) := by
  refine processArgs_of_reach_ret hreach hi ?_
  have he : (SimplifyArgs givenArgs).getD (s.i + 1) "" = x := by
    rw [List.getD_eq_getElem?_getD, hnext]; rfl
  simp only [List.mem_cons, List.mem_singleton, List.not_mem_nil, not_or, or_false] at hx
  obtain ⟨h1, h2, h3, h4⟩ := hx
  rw [loopBody_level hflag, he, if_neg hne, if_neg h1, if_neg h2, if_neg h3, if_neg h4]

theorem invalid_log_level_fails_witness :
    processArgs ["-l", "debug", "--log-level", "Debug", "f"] mainConfig
      = some (.returned processArgsStatusFailure
          (some "invalid log level Debug. Allowed: debug,info,warn,error")
          { mainConfig with logLevel := LevelDebug }) :=
  invalid_log_level_fails ["-l", "debug", "--log-level", "Debug", "f"] mainConfig 1
    ⟨2, { mainConfig with logLevel := LevelDebug }, []⟩ "Debug"
    (by decide) (by decide) (by decide) (by decide) (by decide) (by decide)

/-- Claim C6 as stated fails: the cluster `-e-` stands before any `--`, and
replacing it by its letters `-e`, `--` changes the result. `["-e-", "-ab"]` is
expanded as a whole to `-e -- -a -b`, which leaves two positional tokens and
panics, while in `["-e", "--", "-ab"]` the token `-ab` stands after `--`, is not
expanded and becomes the input. -/
theorem cluster_with_dash_differs :
    processArgs ["-e-", "-ab"] mainConfig
        = some (.panicked "Internal error: expected a single input file."
            { mainConfig with filenameIsCode := true })
      ∧ processArgs ["-e", "--", "-ab"] mainConfig
        = some (.returned processArgsStatusContinue none
            { mainConfig with filenameIsCode := true, inputFile := "-ab" }) := by
  decide

/-- Claim C6, amended: a cluster `-c1c2...cn` with at least two letters, none of
them a dash, that stands before the first `--` may be replaced by the tokens
`-c1`, ..., `-cn` without changing what `processArgs` does (same status, error
and configuration, or the same panic); in particular `["-ed"]` behaves as
`["-e", "-d"]`. -/
theorem cluster_expansion (pre post : List String) (c1 c2 : Char) (cs : List Char)
    (cfg : config) (hpre : "--" ∉ pre) (hcs : ∀ c ∈ c1 :: c2 :: cs, c ≠ '-') :
    processArgs (pre ++ String.mk ('-' :: c1 :: c2 :: cs) :: post) cfg
        = processArgs (pre ++ ((c1 :: c2 :: cs).map (fun c => String.mk ['-', c]) ++ post)) cfg
      ∧ processArgs ["-ed"] cfg = processArgs ["-e", "-d"] cfg := by
  refine ⟨processArgs_congr ?_ cfg, processArgs_congr rfl cfg⟩
  rw [SimplifyArgs_append hpre, SimplifyArgs_append hpre,
    SimplifyArgs_cluster c1 c2 cs (hcs c1 (by simp)), SimplifyArgs_shorts _ hcs]

theorem cluster_expansion_witness :
    processArgs ["-J", "lib", "-ed", "--", "-x"] mainConfig
      = processArgs ["-J", "lib", "-e", "-d", "--", "-x"] mainConfig :=
  (cluster_expansion ["-J", "lib"] ["--", "-x"] 'e' 'd' [] mainConfig (by decide)
    (by decide)).1

/-- Claim C7 fails on the code: for `["a", "b"]` the flag loop ends without
returning, with DAP mode off and two positional tokens, and `processArgs` runs
into the panic "Internal error: expected a single input file.". -/
theorem two_positional_tokens_panic :
    loop 3 (SimplifyArgs ["a", "b"]) (initState mainConfig)
        = some (.exit ⟨2, mainConfig, ["a", "b"]⟩)
      ∧ processArgs ["a", "b"] mainConfig
        = some (.panicked "Internal error: expected a single input file." mainConfig) := by
  decide

/-- Claim C8: when the scan reaches a token `-d` or `--dap`, the flag loop ends
without returning and no positional token was collected, `processArgs` returns
continue with a nil error and `dap` is set in the configuration. -/
theorem dap_needs_no_filename (givenArgs : List String) (cfg : config) (n : Nat)
    (s sf : LoopState)
    (hreach : reach n (SimplifyArgs givenArgs) (initState cfg) = some s)
    (hi : s.i < (SimplifyArgs givenArgs).length)
    (hflag : (SimplifyArgs givenArgs).getD s.i "" = "-d"
      ∨ (SimplifyArgs givenArgs).getD s.i "" = "--dap")
    (hscan : loop ((SimplifyArgs givenArgs).length + 1) (SimplifyArgs givenArgs) (initState cfg)
      = some (.exit sf))
    (hrem : sf.remainingArgs = []) :
    processArgs givenArgs cfg = some (.returned processArgsStatusContinue none sf.cfg)
      ∧ sf.cfg.dap = true := by
  have hs := reach_succ n _ s hreach hi (loopBody_dap_flag hflag)
  obtain ⟨f', hf'⟩ := loop_of_reach hs hscan
  have hdap : sf.cfg.dap = true :=
    loop_config_inv (fun c => c.dap = true) loopBody_dap _ _ hf' rfl
  refine ⟨?_, hdap⟩
  rw [processArgs_of_exit hscan, afterLoop, hrem, if_pos hdap]

theorem dap_needs_no_filename_witness :
    processArgs ["-l", "info", "--dap", "-e"] mainConfig
      = some (.returned processArgsStatusContinue none
          { mainConfig with logLevel := LevelInfo, dap := true, filenameIsCode := true }) :=
  (dap_needs_no_filename ["-l", "info", "--dap", "-e"] mainConfig 1
    ⟨2, { mainConfig with logLevel := LevelInfo }, []⟩
    ⟨4, { mainConfig with logLevel := LevelInfo, dap := true, filenameIsCode := true }, []⟩
    (by decide) (by decide) (by decide) (by decide) (by decide)).1

/-- Claim C9: when the scan reaches a token `t` that starts with a dash, has at
least one more character and is none of the thirteen option spellings,
`processArgs` returns failure with the error "unrecognized argument: t". -/
theorem unrecognized_flag_fails (givenArgs : List String) (cfg : config) (n : Nat)
    (s : LoopState) (t : String) (c : Char) (cs : List Char)
    (hreach : reach n (SimplifyArgs givenArgs) (initState cfg) = some s)
    (hi : s.i < (SimplifyArgs givenArgs).length)
    (ht : (SimplifyArgs givenArgs)[s.i]? = some t)
    (hdash : t.data = '-' :: c :: cs)
    (hnot : t ∉ knownFlags) :
    processArgs givenArgs cfg
      = some (.returned processArgsStatusFailure (some ("unrecognized argument: " ++ t)) s.cfg) := by
  refine processArgs_of_reach_ret hreach hi ?_
  have he : (SimplifyArgs givenArgs).getD s.i "" = t := by
    rw [List.getD_eq_getElem?_getD, ht]; rfl
  rw [loopBody_other (by rw [he]; exact hnot), he,
    if_pos ((dash_test t).2 ⟨c, cs, hdash⟩)]

theorem unrecognized_flag_fails_witness :
    processArgs ["-e", "--Help", "x"] mainConfig
      = some (.returned processArgsStatusFailure (some "unrecognized argument: --Help")
          { mainConfig with filenameIsCode := true }) :=
  unrecognized_flag_fails ["-e", "--Help", "x"] mainConfig 1
    ⟨1, { mainConfig with filenameIsCode := true }, []⟩ "--Help" '-' ['H', 'e', 'l', 'p']
    (by decide) (by decide) (by decide) (by decide) (by decide)

/-- Claim C10: with DAP mode off on entry, `processArgs ["-"]` returns continue
with a nil error and `inputFile = "-"`; and whenever the scan reaches a token
that is empty, is a lone dash or does not start with a dash, the scan goes on
to the next token with this one appended to the positional tokens and the
configuration unchanged. -/
theorem dash_is_positional (cfg : config) (hdap : cfg.dap = false) :
    processArgs ["-"] cfg
        = some (.returned processArgsStatusContinue none { cfg with inputFile := "-" })
      ∧ ∀ (givenArgs : List String) (n : Nat) (s : LoopState) (t : String),
          reach n (SimplifyArgs givenArgs) (initState cfg) = some s →
          (SimplifyArgs givenArgs)[s.i]? = some t →
          (t = "" ∨ t = "-" ∨ t.data.head? ≠ some '-') →
          reach (n + 1) (SimplifyArgs givenArgs) (initState cfg)
            = some ⟨s.i + 1, s.cfg, s.remainingArgs ++ [t]⟩ := by
  have hgen : ∀ (args : List String) (s : LoopState) (t : String), args[s.i]? = some t →
      (t = "" ∨ t = "-" ∨ t.data.head? ≠ some '-') →
      s.i < args.length ∧ loopBody args s = .next ⟨s.i + 1, s.cfg, s.remainingArgs ++ [t]⟩ := by
    intro args s t ht hpos
    have hi : s.i < args.length := by
      rcases Nat.lt_or_ge s.i args.length with h | h
      · exact h
      · rw [List.getElem?_eq_none h] at ht; cases ht
    have he : args.getD s.i "" = t := by
      rw [List.getD_eq_getElem?_getD, ht]; rfl
    obtain ⟨h1, h2⟩ := positional_not_flag hpos
    refine ⟨hi, ?_⟩
    rw [loopBody_other (by rw [he]; exact h1), he, if_neg h2]
  constructor
  · have h1 : loop 2 (SimplifyArgs ["-"]) (initState cfg)
        = some (.exit ⟨1, cfg, ["-"]⟩) := by
      have := (hgen ["-"] (initState cfg) "-" rfl (Or.inr (Or.inl rfl))).2
      show loop 2 ["-"] (initState cfg) = _
      rw [loop, if_pos (by simp [initState]), this]
      rfl
    rw [processArgs_of_exit h1, afterLoop, hdap]
    rfl
  · intro givenArgs n s t hr ht hpos
    obtain ⟨hi, hb⟩ := hgen (SimplifyArgs givenArgs) s t ht hpos
    exact reach_succ n _ s hr hi hb

theorem dash_is_positional_witness :
    reach 2 (SimplifyArgs ["-e", "lib/f"]) (initState mainConfig)
      = some ⟨2, { mainConfig with filenameIsCode := true }, ["lib/f"]⟩ :=
  (dash_is_positional mainConfig rfl).2 ["-e", "lib/f"] 1
    ⟨1, { mainConfig with filenameIsCode := true }, []⟩ "lib/f" (by decide) (by decide)
    (by decide)

/-! ## More on the loop -/

theorem loopBody_version {args : List String} {s : LoopState}
    (h : args.getD s.i "" = "-v" ∨ args.getD s.i "" = "--version") :
    loopBody args s = .ret processArgsStatusSuccess none s.cfg := by
  unfold loopBody
  generalize args.getD s.i "" = arg at h ⊢
  rcases h with rfl | rfl <;> simp

/-- A result returned by the loop was returned by the body in a reached state. -/
theorem loop_ret_reach {args : List String} {status : processArgsStatus}
    {err : Option String} {cfg : config} :
    ∀ (f : Nat) (s0 : LoopState), loop f args s0 = some (.ret status err cfg) →
      ∃ n s, reach n args s0 = some s ∧ s.i < args.length
        ∧ loopBody args s = .ret status err cfg := by
  intro f
  induction f with
  | zero => intro s0 h; simp [loop] at h
  | succ f ih =>
    intro s0 h
    rw [loop] at h
    by_cases hi : s0.i < args.length
    · rw [if_pos hi] at h
      cases hb : loopBody args s0 with
      | next s' =>
        rw [hb] at h
        obtain ⟨n, s, hr, hlt, hbody⟩ := ih s' h
        refine ⟨n + 1, s, ?_, hlt, hbody⟩
        rw [reach, if_pos hi, hb]
        exact hr
      | brk s' => rw [hb] at h; cases h
      | ret st e c =>
        rw [hb] at h
        cases h
        exact ⟨0, s0, rfl, hi, hb⟩
    · rw [if_neg hi] at h; cases h

/-- The state in which the loop is left is a reached state whose index is past
the end, or comes from the `--` branch taken in a reached state. -/
theorem loop_exit_reach {args : List String} {sf : LoopState} :
    ∀ (f : Nat) (s0 : LoopState), loop f args s0 = some (.exit sf) →
      ∃ n s, reach n args s0 = some s
        ∧ ((sf = s ∧ ¬ s.i < args.length)
          ∨ (s.i < args.length ∧ loopBody args s = .brk sf)) := by
  intro f
  induction f with
  | zero => intro s0 h; simp [loop] at h
  | succ f ih =>
    intro s0 h
    rw [loop] at h
    by_cases hi : s0.i < args.length
    · rw [if_pos hi] at h
      cases hb : loopBody args s0 with
      | next s' =>
        rw [hb] at h
        obtain ⟨n, s, hr, hcase⟩ := ih s' h
        refine ⟨n + 1, s, ?_, hcase⟩
        rw [reach, if_pos hi, hb]
        exact hr
      | brk s' =>
        rw [hb] at h
        cases h
        exact ⟨0, s0, rfl, Or.inr ⟨hi, hb⟩⟩
      | ret st e c => rw [hb] at h; cases h
    · rw [if_neg hi] at h
      cases h
      exact ⟨0, _, rfl, Or.inl ⟨rfl, hi⟩⟩

theorem reach_add {args : List String} {t : LoopState} {k : Nat} :
    ∀ (n : Nat) (s0 s : LoopState), reach n args s0 = some s → reach k args s = some t →
      reach (n + k) args s0 = some t := by
  intro n
  induction n with
  | zero =>
    intro s0 s h hk
    rw [reach] at h
    cases h
    rw [Nat.zero_add]; exact hk
  | succ n ih =>
    intro s0 s h hk
    rw [reach] at h
    by_cases hi : s0.i < args.length
    · rw [if_pos hi] at h
      rw [show n + 1 + k = (n + k) + 1 by omega, reach, if_pos hi]
      cases hb : loopBody args s0 with
      | next s' => rw [hb] at h; exact ih s' s h hk
      | brk s' => rw [hb] at h; cases h
      | ret st e c => rw [hb] at h; cases h
    · rw [if_neg hi] at h; cases h

/-- The status and error returned by the body are those of the help, version
and failure branches. -/
theorem loopBody_ret_cases {args : List String} {s : LoopState} {status : processArgsStatus}
    {err : Option String} {cfg : config} (h : loopBody args s = .ret status err cfg) :
    (status = processArgsStatusSuccessUsage ∧ err = none)
      ∨ (status = processArgsStatusSuccess ∧ err = none)
      ∨ (status = processArgsStatusFailure ∧ ∃ msg, err = some msg) := by
  revert h
  refine loopBody_cases args s (fun r => r = .ret status err cfg → _) ?_ ?_ ?_ ?_ ?_ ?_ ?_ ?_ ?_
  all_goals beta_reduce
  all_goals intros
  all_goals rename_i h
  all_goals cases h
  · exact Or.inl ⟨rfl, rfl⟩
  · exact Or.inr (Or.inl ⟨rfl, rfl⟩)
  · exact Or.inr (Or.inr ⟨rfl, _, rfl⟩)

/-- The part after the loop changes `inputFile` at most. -/
theorem afterLoop_config (cfg : config) (remainingArgs : List String) :
    (afterLoop cfg remainingArgs).config = cfg
      ∨ (afterLoop cfg remainingArgs).config
        = { cfg with inputFile := remainingArgs.getD 0 "" } := by
  unfold afterLoop
  by_cases h1 : cfg.dap = true
  · rw [if_pos h1]; exact Or.inl rfl
  rw [if_neg h1]
  by_cases h2 : remainingArgs.length = 0
  · simp only [h2, if_true]; exact Or.inl rfl
  by_cases h3 : remainingArgs.length ≠ 1
  · simp only [h2, h3, if_false, if_true, ne_eq, not_false_eq_true]; exact Or.inl rfl
  · simp only [h2, h3, if_false, ne_eq, not_false_eq_true]; exact Or.inr rfl

/-- When `processArgs` returns continue, the loop was left without a return. -/
theorem processArgs_continue {givenArgs : List String} {cfg cfg' : config}
    {err : Option String}
    (h : processArgs givenArgs cfg = some (.returned processArgsStatusContinue err cfg')) :
    ∃ sf, loop ((SimplifyArgs givenArgs).length + 1) (SimplifyArgs givenArgs) (initState cfg)
        = some (.exit sf)
      ∧ afterLoop sf.cfg sf.remainingArgs = .returned processArgsStatusContinue err cfg' := by
  obtain ⟨r, hr⟩ := loop_isSome (SimplifyArgs givenArgs) (SimplifyArgs givenArgs).length
    (initState cfg) (by simp [initState])
  cases r with
  | exit sf =>
    refine ⟨sf, hr, ?_⟩
    rw [processArgs_of_exit hr] at h
    exact Option.some.inj h
  | ret st e c =>
    rw [processArgs_of_ret hr] at h
    obtain ⟨n, s, _, _, hb⟩ := loop_ret_reach _ _ hr
    cases Option.some.inj h
    rcases loopBody_ret_cases hb with ⟨h1, _⟩ | ⟨h1, _⟩ | ⟨h1, _⟩ <;> cases h1

/-- An invariant of the configuration that each body executed in a state
reached from `s` preserves holds when the loop started in `s` ends. -/
theorem loop_config_inv_on (P : config → Prop) {args : List String} {r : LoopResult} :
    ∀ (f : Nat) (s : LoopState), loop f args s = some r → P s.cfg →
      (∀ k t, reach k args s = some t → t.i < args.length → P t.cfg →
        P (loopBody args t).config) →
      P r.config := by
  intro f
  induction f with
  | zero => intro s h; simp [loop] at h
  | succ f ih =>
    intro s h hs hstep
    rw [loop] at h
    by_cases hi : s.i < args.length
    · rw [if_pos hi] at h
      have h0 := hstep 0 s rfl hi hs
      cases hb : loopBody args s with
      | next s' =>
        rw [hb] at h h0
        refine ih s' h h0 ?_
        intro k t hk hlt ht
        refine hstep (k + 1) t ?_ hlt ht
        rw [reach, if_pos hi, hb]
        exact hk
      | brk s' => rw [hb] at h h0; cases h; exact h0
      | ret st e c => rw [hb] at h h0; cases h; exact h0
    · rw [if_neg hi] at h; cases h; exact hs

theorem loop_exit_of_reach_end {args : List String} {n : Nat} {s0 s : LoopState}
    (h : reach n args s0 = some s) (hi : ¬ s.i < args.length) :
    loop (n + 1) args s0 = some (.exit s) :=
  reach_loop n s0 s h (by rw [loop, if_neg hi])

theorem loop_exit_of_reach_brk {args : List String} {n : Nat} {s0 s sf : LoopState}
    (h : reach n args s0 = some s) (hi : s.i < args.length)
    (hb : loopBody args s = .brk sf) :
    loop (n + 1) args s0 = some (.exit sf) :=
  reach_loop n s0 s h (by rw [loop, if_pos hi, hb])

/-- The part after the loop returns continue without an error or
failure-show-usage with one. -/
theorem afterLoop_returned_cases {cfg cfg' : config} {remainingArgs : List String}
    {status : processArgsStatus} {err : Option String}
    (h : afterLoop cfg remainingArgs = .returned status err cfg') :
    (status = processArgsStatusContinue ∧ err = none)
      ∨ (status = processArgsStatusFailureUsage ∧ ∃ msg, err = some msg) := by
  unfold afterLoop at h
  by_cases h1 : cfg.dap = true
  · rw [if_pos h1] at h; cases h; exact Or.inl ⟨rfl, rfl⟩
  rw [if_neg h1] at h
  by_cases h2 : remainingArgs.length = 0
  · simp only [h2, if_true] at h; cases h; exact Or.inr ⟨rfl, _, rfl⟩
  by_cases h3 : remainingArgs.length ≠ 1
  · simp only [h2, h3, if_false, if_true, ne_eq, not_false_eq_true] at h; cases h
  · simp only [h2, h3, if_false, ne_eq, not_false_eq_true] at h; cases h
    exact Or.inl ⟨rfl, rfl⟩

/-- The status and error of every return of `processArgs`. -/
theorem processArgs_returned_cases {givenArgs : List String} {cfg cfg' : config}
    {status : processArgsStatus} {err : Option String}
    (h : processArgs givenArgs cfg = some (.returned status err cfg')) :
    (status = processArgsStatusContinue ∧ err = none)
      ∨ (status = processArgsStatusSuccessUsage ∧ err = none)
      ∨ (status = processArgsStatusSuccess ∧ err = none)
      ∨ (status = processArgsStatusFailureUsage ∧ ∃ msg, err = some msg)
      ∨ (status = processArgsStatusFailure ∧ ∃ msg, err = some msg) := by
  obtain ⟨r, hr⟩ := loop_isSome (SimplifyArgs givenArgs) (SimplifyArgs givenArgs).length
    (initState cfg) (by simp [initState])
  cases r with
  | exit sf =>
    rw [processArgs_of_exit hr] at h
    rcases afterLoop_returned_cases (Option.some.inj h) with h1 | h1
    · exact Or.inl h1
    · exact Or.inr (Or.inr (Or.inr (Or.inl h1)))
  | ret st e c =>
    rw [processArgs_of_ret hr] at h
    obtain ⟨n, s, _, _, hb⟩ := loop_ret_reach _ _ hr
    cases Option.some.inj h
    rcases loopBody_ret_cases hb with h1 | h1 | h1
    · exact Or.inr (Or.inl h1)
    · exact Or.inr (Or.inr (Or.inl h1))
    · exact Or.inr (Or.inr (Or.inr (Or.inr h1)))

/-! ## Lists that the expansion leaves alone -/

theorem SimplifyArgs_id (l : List String) (h : ∀ a ∈ l, clustered a = false) :
    SimplifyArgs l = l := by
  induction l with
  | nil => rfl
  | cons a l ih =>
    rw [SimplifyArgs]
    by_cases ha : a = "--"
    · rw [if_pos ha]
    · rw [if_neg ha]
      have hc : expandCluster a = none := by
        have := h a (by simp)
        simpa [clustered] using this
      rw [hc, ih (fun b hb => h b (by simp [hb]))]

theorem positional_not_clustered {t : String} (ht : positional t) : clustered t = false := by
  rcases ht with rfl | rfl | h
  · rfl
  · rfl
  · rcases t with ⟨cs⟩
    unfold clustered expandCluster
    match cs, h with
    | [], _ => rfl
    | [_], _ => rfl
    | [_, _], _ => rfl
    | c0 :: c1 :: c2 :: cs, h =>
      have hc0 : c0 ≠ '-' := by
        intro hc; apply h; simp [hc]
      simp [hc0]

/-- One execution of the body moves the scan one step. -/
theorem reach_step {args : List String} {s s' : LoopState} (n : Nat)
    (hi : s.i < args.length) (hb : loopBody args s = .next s') :
    reach (n + 1) args s = reach n args s' := by
  rw [reach, if_pos hi, hb]

theorem loopBody_positional {args : List String} {s : LoopState} {t : String}
    (ht : args.getD s.i "" = t) (hpos : positional t) :
    loopBody args s = .next ⟨s.i + 1, s.cfg, s.remainingArgs ++ [t]⟩ := by
  obtain ⟨h1, h2⟩ := positional_not_flag hpos
  rw [loopBody_other (by rw [ht]; exact h1), ht, if_neg h2]

theorem processArgs_of_reach_end {givenArgs : List String} {cfg : config} {n : Nat}
    {s : LoopState}
    (h : reach n (SimplifyArgs givenArgs) (initState cfg) = some s)
    (hi : ¬ s.i < (SimplifyArgs givenArgs).length) :
    processArgs givenArgs cfg = some (afterLoop s.cfg s.remainingArgs) :=
  processArgs_of_exit (loop_exit_of_reach_end h hi)

/-! ## Reading tokens off a suffix -/

theorem drop_cons {args : List String} {a : String} {tl : List String} :
    ∀ (i : Nat), args.drop i = a :: tl →
      i < args.length ∧ args.getD i "" = a ∧ args.drop (i + 1) = tl := by
  induction args with
  | nil => intro i h; simp at h
  | cons b args ih =>
    intro i h
    cases i with
    | zero =>
      simp only [List.drop_zero, List.cons.injEq] at h
      obtain ⟨rfl, rfl⟩ := h
      exact ⟨by simp, rfl, rfl⟩
    | succ i =>
      rw [List.drop_succ_cons] at h
      obtain ⟨h1, h2, h3⟩ := ih i h
      exact ⟨by simp [h1], by simpa using h2, by simpa using h3⟩

theorem mem_jpathArgs {ds : List String} {f a : String} (h : a ∈ jpathArgs ds f) :
    a = "-J" ∨ a ∈ ds ∨ a = f := by
  induction ds with
  | nil => simp [jpathArgs] at h; exact Or.inr (Or.inr h)
  | cons d ds ih =>
    simp only [jpathArgs, List.mem_cons] at h
    rcases h with h | h | h
    · exact Or.inl h
    · exact Or.inr (Or.inl (by simp [h]))
    · rcases ih h with h' | h' | h'
      · exact Or.inl h'
      · exact Or.inr (Or.inl (by simp [h']))
      · exact Or.inr (Or.inr h')

/-- The scan of a run of `-J` flags followed by one positional token. -/
theorem reach_jpathArgs {args : List String} {f : String} (hf : positional f) :
    ∀ (ds : List String) (s : LoopState), args.drop s.i = jpathArgs ds f →
      (∀ d ∈ ds, d ≠ "") →
      reach (ds.length + 1) args s
          = some ⟨s.i + 2 * ds.length + 1, { s.cfg with jpath := s.cfg.jpath ++ ds },
              s.remainingArgs ++ [f]⟩
        ∧ args.length = s.i + 2 * ds.length + 1 := by
  intro ds
  induction ds with
  | nil =>
    intro s h _
    obtain ⟨h1, h2, h3⟩ := drop_cons s.i h
    have hlen : args.length = s.i + 1 := by
      have := congrArg List.length h3
      simp at this
      omega
    refine ⟨?_, by simpa using hlen⟩
    show reach (0 + 1) args s = _
    rw [reach_step 0 h1 (loopBody_positional h2 hf)]
    simp [reach]
  | cons d ds ih =>
    intro s h hne
    obtain ⟨h1, h2, h3⟩ := drop_cons s.i h
    obtain ⟨_, h5, h6⟩ := drop_cons (s.i + 1) h3
    have hd : d ≠ "" := hne d (by simp)
    have hb : loopBody args s
        = .next ⟨s.i + 1 + 1, { s.cfg with jpath := s.cfg.jpath ++ [d] }, s.remainingArgs⟩ := by
      rw [loopBody_jpath (Or.inl h2), h5, if_neg hd]
    obtain ⟨hr, hlen⟩ := ih ⟨s.i + 1 + 1, { s.cfg with jpath := s.cfg.jpath ++ [d] },
      s.remainingArgs⟩ h6 (fun e he => hne e (by simp [he]))
    refine ⟨?_, ?_⟩
    · rw [List.length_cons, reach_step _ h1 hb, hr]
      simp only [List.append_assoc, List.singleton_append, Option.some.injEq,
        LoopState.mk.injEq, and_true]
      omega
    · rw [hlen, List.length_cons]
      simp only
      omega

/-- Only the log-level branch assigns `logLevel`. -/
theorem loopBody_logLevel {args : List String} {s : LoopState}
    (h : ¬ (args.getD s.i "" = "-l" ∨ args.getD s.i "" = "--log-level")) :
    (loopBody args s).config.logLevel = s.cfg.logLevel := by
  by_cases hk : args.getD s.i "" ∈ knownFlags
  · simp only [knownFlags, List.mem_cons, List.mem_singleton, List.not_mem_nil, or_false] at hk
    rcases hk with h1 | h1 | h1 | h1 | h1 | h1 | h1 | h1 | h1 | h1 | h1 | h1 | h1
    · rw [loopBody_help (Or.inl h1)]; rfl
    · rw [loopBody_help (Or.inr h1)]; rfl
    · rw [loopBody_version (Or.inl h1)]; rfl
    · rw [loopBody_version (Or.inr h1)]; rfl
    · rw [loopBody_exec (Or.inl h1)]; rfl
    · rw [loopBody_exec (Or.inr h1)]; rfl
    · rw [loopBody_dashdash h1]; rfl
    · rw [loopBody_jpath (Or.inl h1)]
      by_cases he : args.getD (s.i + 1) "" = ""
      · rw [if_pos he]; rfl
      · rw [if_neg he]; rfl
    · rw [loopBody_jpath (Or.inr h1)]
      by_cases he : args.getD (s.i + 1) "" = ""
      · rw [if_pos he]; rfl
      · rw [if_neg he]; rfl
    · rw [loopBody_dap_flag (Or.inl h1)]; rfl
    · rw [loopBody_dap_flag (Or.inr h1)]; rfl
    · exact absurd (Or.inl h1) h
    · exact absurd (Or.inr h1) h
  · rw [loopBody_other hk]
    by_cases he : 1 < len (args.getD s.i "") ∧ first (args.getD s.i "") = '-'
    · rw [if_pos he]; rfl
    · rw [if_neg he]; rfl

/-- The log-level branch in terms of `levelOf`: the body goes on with the level
named by the next token, or returns failure when that token names none. -/
theorem loopBody_level_cases {args : List String} {s : LoopState}
    (h : args.getD s.i "" = "-l" ∨ args.getD s.i "" = "--log-level") :
    (∃ msg, loopBody args s = .ret processArgsStatusFailure (some msg) s.cfg)
      ∨ ∃ lvl, levelOf (args.getD (s.i + 1) "") = some lvl
          ∧ loopBody args s
            = .next ⟨s.i + 1 + 1, { s.cfg with logLevel := lvl }, s.remainingArgs⟩ := by
  rw [loopBody_level h]
  unfold levelOf
  generalize args.getD (s.i + 1) "" = x
  by_cases h0 : x = ""
  · rw [if_pos h0]; exact Or.inl ⟨_, rfl⟩
  rw [if_neg h0]
  by_cases h1 : x = "debug"
  · rw [if_pos h1, if_pos h1]; exact Or.inr ⟨_, rfl, rfl⟩
  rw [if_neg h1, if_neg h1]
  by_cases h2 : x = "info"
  · rw [if_pos h2, if_pos h2]; exact Or.inr ⟨_, rfl, rfl⟩
  rw [if_neg h2, if_neg h2]
  by_cases h3 : x = "warn"
  · rw [if_pos h3, if_pos h3]; exact Or.inr ⟨_, rfl, rfl⟩
  rw [if_neg h3, if_neg h3]
  by_cases h4 : x = "error"
  · rw [if_pos h4, if_pos h4]; exact Or.inr ⟨_, rfl, rfl⟩
  rw [if_neg h4, if_neg h4]; exact Or.inl ⟨_, rfl⟩

/-! ## The claims C11 to C20 -/

/-- Claim C11 as stated fails: `lib` and `-xy` are non-empty directory tokens
and `f` is a positional token, yet `["-J", "lib", "-J", "-xy", "f"]` does not
return continue. The expansion turns `-xy` into `-x`, `-y` before any flag is
read, `-J` takes `-x` as its directory and `-y` is an unrecognized argument. -/
theorem jpath_cluster_directory_fails :
    (∀ d ∈ ["lib", "-xy"], d ≠ "") ∧ positional "f"
      ∧ processArgs (jpathArgs ["lib", "-xy"] "f") mainConfig
        = some (.returned processArgsStatusFailure (some "unrecognized argument: -y")
            { mainConfig with jpath := ["lib", "-x"] }) := by
  decide

/-- Claim C11, amended: for every list of directory tokens `d1..dn` that are
non-empty and are not clusters, and every positional token `f`, `processArgs` on
`["-J", d1, ..., "-J", dn, f]` returns continue with a nil error, and the final
`jpath` is the initial one followed by `d1, ..., dn` in that order, duplicates
kept; the other fields are unchanged, except that `inputFile` becomes `f` when
DAP mode is off. -/
theorem jpath_accumulates (ds : List String) (f : String) (cfg : config)
    (hne : ∀ d ∈ ds, d ≠ "") (hcl : ∀ d ∈ ds, clustered d = false) (hf : positional f) :
    processArgs (jpathArgs ds f) cfg
      = some (.returned processArgsStatusContinue none
          (if cfg.dap then { cfg with jpath := cfg.jpath ++ ds }
            else { cfg with jpath := cfg.jpath ++ ds, inputFile := f })) := by
  have hs : SimplifyArgs (jpathArgs ds f) = jpathArgs ds f := by
    apply SimplifyArgs_id
    intro a ha
    rcases mem_jpathArgs ha with rfl | h | rfl
    · rfl
    · exact hcl a h
    · exact positional_not_clustered hf
  obtain ⟨hr, hlen⟩ := @reach_jpathArgs (jpathArgs ds f) f hf ds (initState cfg) rfl hne
  rw [← hs] at hr hlen
  rw [processArgs_of_reach_end hr (by rw [hlen]; simp [initState]), afterLoop]
  by_cases hdap : cfg.dap = true
  · simp [initState, hdap]
  · simp [initState, hdap]

theorem jpath_accumulates_witness :
    processArgs ["-J", "b", "-J", "a", "-J", "b", "main.jsonnet"] mainConfig
      = some (.returned processArgsStatusContinue none
          { mainConfig with jpath := ["b", "a", "b"], inputFile := "main.jsonnet" }) :=
  jpath_accumulates ["b", "a", "b"] "main.jsonnet" mainConfig (by decide) (by decide)
    (by decide)

/-- Claim C12: when `processArgs` returns continue, the final `logLevel` is the
level named by the token after the last `-l` or `--log-level` that the scan
reached (last: no later reached state stands at such a flag), where `debug`,
`info`, `warn`, `error` name `LevelDebug`, `LevelInfo`, `LevelWarn`,
`LevelError`; when the scan reached no such flag, `logLevel` keeps its initial
value, which is `LevelError` in the configuration of `main`. -/
theorem last_log_level_wins (givenArgs : List String) (cfg cfg' : config)
    (hret : processArgs givenArgs cfg = some (.returned processArgsStatusContinue none cfg')) :
    (∀ n s, reach n (SimplifyArgs givenArgs) (initState cfg) = some s →
        s.i < (SimplifyArgs givenArgs).length →
        ((SimplifyArgs givenArgs).getD s.i "" = "-l"
          ∨ (SimplifyArgs givenArgs).getD s.i "" = "--log-level") →
        (∀ m t, n < m → reach m (SimplifyArgs givenArgs) (initState cfg) = some t →
          t.i < (SimplifyArgs givenArgs).length →
          ¬ ((SimplifyArgs givenArgs).getD t.i "" = "-l"
            ∨ (SimplifyArgs givenArgs).getD t.i "" = "--log-level")) →
        levelOf ((SimplifyArgs givenArgs).getD (s.i + 1) "") = some cfg'.logLevel)
      ∧ ((∀ m t, reach m (SimplifyArgs givenArgs) (initState cfg) = some t →
          t.i < (SimplifyArgs givenArgs).length →
          ¬ ((SimplifyArgs givenArgs).getD t.i "" = "-l"
            ∨ (SimplifyArgs givenArgs).getD t.i "" = "--log-level")) →
        cfg'.logLevel = cfg.logLevel)
      ∧ levelOf "debug" = some LevelDebug ∧ levelOf "info" = some LevelInfo
      ∧ levelOf "warn" = some LevelWarn ∧ levelOf "error" = some LevelError
      ∧ mainConfig.logLevel = LevelError := by
  obtain ⟨sf, hloop, hafter⟩ := processArgs_continue hret
  have hcfg : cfg'.logLevel = sf.cfg.logLevel := by
    have h := afterLoop_config sf.cfg sf.remainingArgs
    rw [hafter] at h
    rcases h with h | h
    · exact congrArg config.logLevel (show cfg' = sf.cfg from h)
    · have h2 : cfg' = { sf.cfg with inputFile := sf.remainingArgs.getD 0 "" } := h
      rw [h2]
  refine ⟨?_, ?_, rfl, rfl, rfl, rfl, rfl⟩
  · intro n s hr hi hflag hlast
    rcases loopBody_level_cases hflag with ⟨msg, hb⟩ | ⟨lvl, hlvl, hb⟩
    · have := processArgs_of_reach_ret hr hi hb
      rw [hret] at this
      cases this
    · rw [hlvl, hcfg]
      have hs := reach_succ n _ s hr hi hb
      obtain ⟨f', hf'⟩ := loop_of_reach hs hloop
      refine congrArg some (Eq.symm ?_)
      refine loop_config_inv_on (fun c => c.logLevel = lvl) f' _ hf' rfl ?_
      intro k t hk hlt ht
      have hm := reach_add (n + 1) _ _ hs hk
      rw [loopBody_logLevel (hlast (n + 1 + k) t (by omega) hm hlt)]
      exact ht
  · intro hnone
    rw [hcfg]
    refine loop_config_inv_on (fun c => c.logLevel = cfg.logLevel) _ _ hloop rfl ?_
    intro k t hk hlt ht
    rw [loopBody_logLevel (hnone k t hk hlt)]
    exact ht

theorem last_log_level_wins_witness :
    levelOf ((SimplifyArgs ["-l", "debug", "f", "--log-level", "warn", "-e"]).getD 4 "")
      = some LevelWarn :=
  (last_log_level_wins ["-l", "debug", "f", "--log-level", "warn", "-e"] mainConfig
    { mainConfig with logLevel := LevelWarn, filenameIsCode := true, inputFile := "f" }
    (by decide)).1 2 ⟨3, { mainConfig with logLevel := LevelDebug }, ["f"]⟩
    (by decide) (by decide) (by decide)
    (fun m t hm hr hi => by
      match m, hm, hr with
      | 3, _, hr => cases hr; revert hi; decide
      | 4, _, hr => cases hr; revert hi; decide
      | k + 5, _, hr => cases hr)

/-- Claim C13: for every token `t`, with DAP mode off on entry,
`processArgs ["-e", "--", t]` returns continue with a nil error,
`filenameIsCode = true` and `inputFile = t`, the other fields unchanged. -/
theorem exec_then_dashdash (t : String) (cfg : config) (hdap : cfg.dap = false) :
    processArgs ["-e", "--", t] cfg
      = some (.returned processArgsStatusContinue none
          { cfg with filenameIsCode := true, inputFile := t }) := by
  have hs : SimplifyArgs ["-e", "--", t] = ["-e", "--", t] := rfl
  have h1 : reach 1 ["-e", "--", t] (initState cfg)
      = some ⟨1, { cfg with filenameIsCode := true }, []⟩ := by
    rw [reach, if_pos (by simp [initState]),
      @loopBody_exec ["-e", "--", t] (initState cfg) (Or.inl rfl)]
    rfl
  have h2 := loop_exit_of_reach_brk h1 (by simp) (loopBody_dashdash rfl)
  rw [← hs] at h2
  rw [processArgs_of_exit h2, afterLoop, if_neg (by simp [hdap])]
  rfl

theorem exec_then_dashdash_witness :
    mainConfig.dap = false ∧ processArgs ["-e", "--", "1+1"] mainConfig
      = some (.returned processArgsStatusContinue none
          { mainConfig with filenameIsCode := true, inputFile := "1+1" }) :=
  ⟨rfl, exec_then_dashdash "1+1" mainConfig rfl⟩

/-- Claim C14 as stated fails: on `[""]` `processArgs` returns continue with
DAP mode off, and `inputFile` is the empty string: the empty token is a
positional token like any other. -/
theorem empty_token_is_input :
    processArgs [""] mainConfig
        = some (.returned processArgsStatusContinue none mainConfig)
      ∧ mainConfig.dap = false ∧ mainConfig.inputFile = "" := by
  decide

/-- Claim C14, amended: when `processArgs` returns continue with DAP mode off,
the flag loop ended without returning, it collected exactly one positional
token, and `inputFile` is that token (possibly the empty string); the other
fields are those the loop left. -/
theorem input_is_single_positional (givenArgs : List String) (cfg cfg' : config)
    (hret : processArgs givenArgs cfg = some (.returned processArgsStatusContinue none cfg'))
    (hdap : cfg'.dap = false) :
    ∃ sf, loop ((SimplifyArgs givenArgs).length + 1) (SimplifyArgs givenArgs) (initState cfg)
        = some (.exit sf)
      ∧ sf.remainingArgs = [cfg'.inputFile]
      ∧ cfg' = { sf.cfg with inputFile := cfg'.inputFile } := by
  obtain ⟨sf, hloop, hafter⟩ := processArgs_continue hret
  refine ⟨sf, hloop, ?_⟩
  unfold afterLoop at hafter
  by_cases h1 : sf.cfg.dap = true
  · rw [if_pos h1] at hafter
    cases hafter
    rw [h1] at hdap; cases hdap
  rw [if_neg h1] at hafter
  by_cases h2 : sf.remainingArgs.length = 0
  · simp only [h2, if_true] at hafter; cases hafter
  by_cases h3 : sf.remainingArgs.length ≠ 1
  · simp only [h2, h3, if_false, if_true, ne_eq, not_false_eq_true] at hafter; cases hafter
  simp only [h2, h3, if_false, ne_eq, not_false_eq_true] at hafter
  cases hafter
  have hlen : sf.remainingArgs.length = 1 := by
    simpa using h3
  obtain ⟨a, ha⟩ := List.length_eq_one.mp hlen
  rw [ha]
  exact ⟨rfl, rfl⟩

theorem input_is_single_positional_witness :
    ∃ sf, loop ((SimplifyArgs ["-e", "x", "-J", "lib"]).length + 1)
          (SimplifyArgs ["-e", "x", "-J", "lib"]) (initState mainConfig) = some (.exit sf)
      ∧ sf.remainingArgs = ["x"]
      ∧ ({ mainConfig with filenameIsCode := true, jpath := ["lib"], inputFile := "x" } : config)
        = { sf.cfg with inputFile := "x" } :=
  input_is_single_positional ["-e", "x", "-J", "lib"] mainConfig
    { mainConfig with filenameIsCode := true, jpath := ["lib"], inputFile := "x" }
    (by decide) (by decide)

/-- Claim C15: the dispatch of `main` exits with code 0 on success-show-usage and
success, with code 1 on failure-show-usage and failure, and does not exit on
continue; so every return of `processArgs` that carries an error exits with
code 1 and every help or version return exits with code 0. -/
theorem exit_codes :
    (∀ err, (mainSwitch processArgsStatusSuccessUsage err).2 = some 0
      ∧ (mainSwitch processArgsStatusSuccess err).2 = some 0
      ∧ (mainSwitch processArgsStatusFailureUsage err).2 = some 1
      ∧ (mainSwitch processArgsStatusFailure err).2 = some 1
      ∧ (mainSwitch processArgsStatusContinue err).2 = none)
    ∧ ∀ (givenArgs : List String) (cfg cfg' : config) (status : processArgsStatus)
        (err : Option String),
        processArgs givenArgs cfg = some (.returned status err cfg') →
        (err ≠ none → (mainSwitch status err).2 = some 1)
        ∧ (status = processArgsStatusSuccessUsage ∨ status = processArgsStatusSuccess →
            (mainSwitch status err).2 = some 0) := by
  constructor
  · intro err
    exact ⟨rfl, rfl, rfl, rfl, rfl⟩
  · intro givenArgs cfg cfg' status err h
    constructor
    · intro he
      rcases processArgs_returned_cases h with ⟨_, h2⟩ | ⟨_, h2⟩ | ⟨_, h2⟩ | ⟨h1, _⟩ | ⟨h1, _⟩
      · exact absurd h2 he
      · exact absurd h2 he
      · exact absurd h2 he
      · rw [h1]; rfl
      · rw [h1]; rfl
    · rintro (h1 | h1) <;> rw [h1] <;> rfl

theorem exit_codes_witness :
    (mainSwitch processArgsStatusFailure (some "unrecognized argument: -x")).2 = some 1 :=
  (exit_codes.2 ["f", "-x"] mainConfig mainConfig processArgsStatusFailure
    (some "unrecognized argument: -x") (by decide)).1 (by decide)

/-- Claim C16: for every list of tokens `s`, `processArgs` on `"--version" :: s`
and on `"-v" :: s` returns success with a nil error and the configuration it
was given: the tokens of `s` are never read. -/
theorem version_stops_scan (s : List String) (cfg : config) :
    processArgs ("--version" :: s) cfg = some (.returned processArgsStatusSuccess none cfg)
      ∧ processArgs ("-v" :: s) cfg = some (.returned processArgsStatusSuccess none cfg) := by
  have h1 : SimplifyArgs ("--version" :: s) = "--version" :: SimplifyArgs s := rfl
  have h2 : SimplifyArgs ("-v" :: s) = "-v" :: SimplifyArgs s := rfl
  constructor
  · refine @processArgs_of_reach_ret _ _ _ 0 (initState cfg) _ _ rfl ?_ ?_
    · rw [h1]; simp [initState]
    · rw [h1]; exact loopBody_version (Or.inr rfl)
  · refine @processArgs_of_reach_ret _ _ _ 0 (initState cfg) _ _ rfl ?_ ?_
    · rw [h2]; simp [initState]
    · rw [h2]; exact loopBody_version (Or.inl rfl)

/-- Claim C17 as stated fails: `-ab` is a non-empty token and `f` a positional
one, yet `["--jpath", "-ab", "f"]` returns failure. The expansion turns `-ab`
into `-a`, `-b` before any flag is read, so `--jpath` takes `-a` and `-b` is an
unrecognized argument. -/
theorem jpath_cluster_argument_is_expanded :
    ("-ab" : String) ≠ "" ∧ positional "f"
      ∧ processArgs ["--jpath", "-ab", "f"] mainConfig
        = some (.returned processArgsStatusFailure (some "unrecognized argument: -b")
            { mainConfig with jpath := ["-a"] }) := by
  decide

/-- Claim C17, amended: for every non-empty token `d` that is not a cluster (so
`-h`, `--`, `-e`, every dash token of length two and every long form are
allowed) and every positional token `f`, with DAP mode off on entry,
`processArgs ["--jpath", d, f]` returns continue with a nil error,
`jpath = initial ++ [d]` and `inputFile = f`. -/
theorem jpath_argument_verbatim (d f : String) (cfg : config)
    (hd : d ≠ "") (hcl : clustered d = false) (hf : positional f) (hdap : cfg.dap = false) :
    processArgs ["--jpath", d, f] cfg
      = some (.returned processArgsStatusContinue none
          { cfg with jpath := cfg.jpath ++ [d], inputFile := f }) := by
  have hs : SimplifyArgs ["--jpath", d, f] = ["--jpath", d, f] := by
    apply SimplifyArgs_id
    intro a ha
    simp only [List.mem_cons, List.mem_singleton, List.not_mem_nil, or_false] at ha
    rcases ha with rfl | rfl | rfl
    · rfl
    · exact hcl
    · exact positional_not_clustered hf
  have hb0 : loopBody ["--jpath", d, f] (initState cfg)
      = .next ⟨2, { cfg with jpath := cfg.jpath ++ [d] }, []⟩ := by
    rw [@loopBody_jpath ["--jpath", d, f] (initState cfg) (Or.inr rfl)]
    exact if_neg hd
  have hb1 : loopBody ["--jpath", d, f] ⟨2, { cfg with jpath := cfg.jpath ++ [d] }, []⟩
      = .next ⟨3, { cfg with jpath := cfg.jpath ++ [d] }, [f]⟩ :=
    @loopBody_positional ["--jpath", d, f] ⟨2, { cfg with jpath := cfg.jpath ++ [d] }, []⟩
      f rfl hf
  have hr : reach 2 (SimplifyArgs ["--jpath", d, f]) (initState cfg)
      = some ⟨3, { cfg with jpath := cfg.jpath ++ [d] }, [f]⟩ := by
    rw [hs, reach_step 1 (by simp [initState]) hb0, reach_step 0 (by simp) hb1]
    rfl
  rw [processArgs_of_reach_end hr (by rw [hs]; simp), afterLoop, if_neg (by simp [hdap])]
  rfl

theorem jpath_argument_verbatim_witness :
    processArgs ["--jpath", "-h", "-"] mainConfig
      = some (.returned processArgsStatusContinue none
          { mainConfig with jpath := ["-h"], inputFile := "-" }) :=
  jpath_argument_verbatim "-h" "-" mainConfig (by decide) (by decide) (by decide) (by decide)

/-- Claim C18: whenever `processArgs` returns, its error is non-nil exactly when
the status is failure or failure-show-usage; so with failure-show-usage the
dispatch of `main` writes the error line, the blank line and the usage text to
standard error. -/
theorem error_iff_failure (givenArgs : List String) (cfg cfg' : config)
    (status : processArgsStatus) (err : Option String)
    (hret : processArgs givenArgs cfg = some (.returned status err cfg')) :
    (err ≠ none ↔
        status = processArgsStatusFailure ∨ status = processArgsStatusFailureUsage)
      ∧ (status = processArgsStatusFailureUsage →
          ∃ msg, err = some msg ∧ (mainSwitch status err).1
            = [.stderrLine ("ERROR: " ++ msg), .stderrLine "", .usageStderr]) := by
  rcases processArgs_returned_cases hret with
    ⟨h1, h2⟩ | ⟨h1, h2⟩ | ⟨h1, h2⟩ | ⟨h1, msg, h2⟩ | ⟨h1, msg, h2⟩
  all_goals subst h1 h2
  all_goals simp [mainSwitch]

theorem error_iff_failure_witness :
    ((some "must give code" : Option String) ≠ none ↔
        processArgsStatusFailureUsage = processArgsStatusFailure
          ∨ processArgsStatusFailureUsage = processArgsStatusFailureUsage)
      ∧ (processArgsStatusFailureUsage = processArgsStatusFailureUsage →
          ∃ msg, some "must give code" = some msg
            ∧ (mainSwitch processArgsStatusFailureUsage (some "must give code")).1
              = [.stderrLine ("ERROR: " ++ msg), .stderrLine "", .usageStderr]) :=
  error_iff_failure ["-e"] mainConfig { mainConfig with filenameIsCode := true }
    processArgsStatusFailureUsage (some "must give code") (by decide)

/-- Claim C19: when the scan reaches a token `-d` or `--dap` and the flag loop
ends without returning, `processArgs` returns continue with a nil error,
whatever number of positional tokens was collected; `dap` is set and
`inputFile` keeps the value it had on entry. -/
theorem dap_ignores_positionals (givenArgs : List String) (cfg : config) (n : Nat)
    (s sf : LoopState)
    (hreach : reach n (SimplifyArgs givenArgs) (initState cfg) = some s)
    (hi : s.i < (SimplifyArgs givenArgs).length)
    (hflag : (SimplifyArgs givenArgs).getD s.i "" = "-d"
      ∨ (SimplifyArgs givenArgs).getD s.i "" = "--dap")
    (hscan : loop ((SimplifyArgs givenArgs).length + 1) (SimplifyArgs givenArgs) (initState cfg)
      = some (.exit sf)) :
    processArgs givenArgs cfg = some (.returned processArgsStatusContinue none sf.cfg)
      ∧ sf.cfg.dap = true ∧ sf.cfg.inputFile = cfg.inputFile := by
  have hs := reach_succ n _ s hreach hi (loopBody_dap_flag hflag)
  obtain ⟨f', hf'⟩ := loop_of_reach hs hscan
  have hdap : sf.cfg.dap = true :=
    loop_config_inv (fun c => c.dap = true) loopBody_dap _ _ hf' rfl
  have hin : sf.cfg.inputFile = cfg.inputFile :=
    loop_config_inv (fun c => c.inputFile = cfg.inputFile)
      (loopBody_inputFile cfg.inputFile) _ _ hscan rfl
  refine ⟨?_, hdap, hin⟩
  rw [processArgs_of_exit hscan, afterLoop, if_pos hdap]

theorem dap_ignores_positionals_witness :
    processArgs ["a", "-d", "b", "--", "-c"] mainConfig
      = some (.returned processArgsStatusContinue none { mainConfig with dap := true }) :=
  (dap_ignores_positionals ["a", "-d", "b", "--", "-c"] mainConfig 1
    ⟨1, mainConfig, ["a"]⟩ ⟨5, { mainConfig with dap := true }, ["a", "b", "-c"]⟩
    (by decide) (by decide) (by decide) (by decide)).1

/-- Claim C20: for every positional token `f` and every flag `g` among `-e`,
`--exec`, `-d`, `--dap`, `processArgs [f, g]` and `processArgs [g, f]` end in the
same way: same status, same error, same configuration. -/
theorem flag_position_irrelevant (f g : String) (cfg : config) (hf : positional f)
    (hg : g ∈ ["-e", "--exec", "-d", "--dap"]) :
    processArgs [f, g] cfg = processArgs [g, f] cfg := by
  have hfc := positional_not_clustered hf
  have key : ∀ (upd : config → config),
      (∀ (args : List String) (s : LoopState), args.getD s.i "" = g →
        loopBody args s = .next ⟨s.i + 1, upd s.cfg, s.remainingArgs⟩) →
      clustered g = false →
      processArgs [f, g] cfg = processArgs [g, f] cfg := by
    intro upd hstep hgc
    have hs1 : SimplifyArgs [f, g] = [f, g] := by
      apply SimplifyArgs_id
      intro a ha
      simp only [List.mem_cons, List.mem_singleton, List.not_mem_nil, or_false] at ha
      rcases ha with rfl | rfl
      · exact hfc
      · exact hgc
    have hs2 : SimplifyArgs [g, f] = [g, f] := by
      apply SimplifyArgs_id
      intro a ha
      simp only [List.mem_cons, List.mem_singleton, List.not_mem_nil, or_false] at ha
      rcases ha with rfl | rfl
      · exact hgc
      · exact hfc
    have a0 : loopBody [f, g] (initState cfg) = .next ⟨1, cfg, [f]⟩ :=
      @loopBody_positional [f, g] (initState cfg) f rfl hf
    have a1 : loopBody [f, g] ⟨1, cfg, [f]⟩ = .next ⟨2, upd cfg, [f]⟩ :=
      hstep [f, g] ⟨1, cfg, [f]⟩ rfl
    have b0 : loopBody [g, f] (initState cfg) = .next ⟨1, upd cfg, []⟩ :=
      hstep [g, f] (initState cfg) rfl
    have b1 : loopBody [g, f] ⟨1, upd cfg, []⟩ = .next ⟨2, upd cfg, [f]⟩ :=
      @loopBody_positional [g, f] ⟨1, upd cfg, []⟩ f rfl hf
    have hr1 : reach 2 (SimplifyArgs [f, g]) (initState cfg) = some ⟨2, upd cfg, [f]⟩ := by
      rw [hs1, reach_step 1 (by simp [initState]) a0, reach_step 0 (by simp) a1]
      rfl
    have hr2 : reach 2 (SimplifyArgs [g, f]) (initState cfg) = some ⟨2, upd cfg, [f]⟩ := by
      rw [hs2, reach_step 1 (by simp [initState]) b0, reach_step 0 (by simp) b1]
      rfl
    rw [processArgs_of_reach_end hr1 (by rw [hs1]; simp),
      processArgs_of_reach_end hr2 (by rw [hs2]; simp)]
  simp only [List.mem_cons, List.mem_singleton, List.not_mem_nil, or_false] at hg
  rcases hg with rfl | rfl | rfl | rfl
  · exact key (fun c => { c with filenameIsCode := true })
      (fun _ _ h => loopBody_exec (Or.inl h)) rfl
  · exact key (fun c => { c with filenameIsCode := true })
      (fun _ _ h => loopBody_exec (Or.inr h)) rfl
  · exact key (fun c => { c with dap := true })
      (fun _ _ h => loopBody_dap_flag (Or.inl h)) rfl
  · exact key (fun c => { c with dap := true })
      (fun _ _ h => loopBody_dap_flag (Or.inr h)) rfl

theorem flag_position_irrelevant_witness :
    processArgs ["-", "--exec"] mainConfig = processArgs ["--exec", "-"] mainConfig :=
  flag_position_irrelevant "-" "--exec" mainConfig (by decide) (by decide)

end Jsonnice
